import Mathlib

/-!
Verification of the uckb-scanner base-data persistence engine and
synchronization controller.

The relational store (`src/kernel/src/storage/base_data/operations.rs`) is
embedded as lists of rows, one list per table, with SQL statement semantics
made explicit: `INSERT ... ON CONFLICT DO NOTHING` is an upsert guarded by the
table's unique keys, `DELETE ... WHERE` is a filter, `UPDATE ... WHERE` is a
map, and `DELETE ... RETURNING` yields the removed rows.  The engine entry
points (`insert_block`, `remove_block`, `verify_block`, `initialize` in
`src/kernel/src/storage/base_data/mod.rs`) are translated statement by
statement.  The sync controller loop (`src/utils/src/subcmd/sync.rs`) is
embedded as a step function on an explicit state driven by remote-source
events.
-/

namespace Uckb

abbrev Hash := Nat

abbrev Bytes := List Nat

/-- Abstract content encoding used by the content-address hash functions. -/
def encodeBytes (l : Bytes) : Nat :=
  l.foldr (fun b acc => Nat.pair b acc + 1) 0

/-- Models `packed::CellOutput::calc_data_hash` (content hash of a data blob). -/
def calcDataHash (d : Bytes) : Hash :=
  Nat.pair 0 (encodeBytes d)

/-- Models `packed::Script` (code_hash, hash_type, args). -/
structure Script where
  codeHash : Hash
  hashType : Nat
  args : Bytes
deriving DecidableEq

/-- Models `packed::Script::calc_script_hash` (content hash of a script). -/
def calcScriptHash (sc : Script) : Hash :=
  Nat.pair 1 (Nat.pair sc.codeHash (Nat.pair sc.hashType (encodeBytes sc.args)))

/-- `u64::from_le_bytes` over an 8-byte little-endian slice. -/
def leBytesToNat (l : List Nat) : Nat :=
  l.foldr (fun b acc => b + 256 * acc) 0

/-- `u64::to_le_bytes`, as stored into the `consumed_since` column. -/
def natToLe8 (n : Nat) : Bytes :=
  (List.range 8).map (fun i => n / 256 ^ i % 256)

/-- Models `Dao::from_slice` in `src/kernel/src/utilities.rs`: the 32-byte dao
field split into four little-endian u64 values (c, ar, s, u). -/
def daoOf (d : Bytes) : Nat × Nat × Nat × Nat :=
  (leBytesToNat (d.take 8),
   leBytesToNat ((d.drop 8).take 8),
   leBytesToNat ((d.drop 16).take 8),
   leBytesToNat ((d.drop 24).take 8))

/-- Models `core::HeaderView`: hashes come with the view, they are not
recomputed by this repository. -/
structure Header where
  hash : Hash
  version : Nat
  compactTarget : Nat
  timestamp : Nat
  number : Nat
  epochNumber : Nat
  epochIndex : Nat
  epochLength : Nat
  parentHash : Hash
  transactionsRoot : Hash
  proposalsHash : Hash
  unclesHash : Hash
  dao : Bytes
  nonce : Bytes
deriving DecidableEq

/-- Models `packed::OutPoint`. -/
structure OutPoint where
  txHash : Hash
  index : Nat
deriving DecidableEq

/-- Models `packed::CellInput`. -/
structure CellInput where
  since : Nat
  previousOutput : OutPoint
deriving DecidableEq

/-- Models `packed::CellDep`. -/
structure CellDep where
  outPoint : OutPoint
  depType : Nat
deriving DecidableEq

/-- Models `packed::CellOutput`. -/
structure CellOutput where
  capacity : Nat
  lock : Script
  typeScript : Option Script
deriving DecidableEq

/-- Models `core::TransactionView` (hash comes with the view). -/
structure Transaction where
  hash : Hash
  version : Nat
  cellDeps : List CellDep
  headerDeps : List Hash
  witnesses : List Bytes
  inputs : List CellInput
  outputs : List CellOutput
  outputsData : List Bytes
deriving DecidableEq

/-- Models `core::UncleBlockView` (header plus proposal short ids). -/
structure Uncle where
  header : Header
  proposals : List Bytes
deriving DecidableEq

/-- Models `core::BlockView`. -/
structure Block where
  header : Header
  uncles : List Uncle
  proposals : List Bytes
  transactions : List Transaction
deriving DecidableEq

def Block.hash (b : Block) : Hash := b.header.hash

def Block.number (b : Block) : Nat := b.header.number

def Block.uncleHashes (b : Block) : List Hash := b.uncles.map (·.header.hash)

def Block.txHashes (b : Block) : List Hash := b.transactions.map (·.hash)

/-- Row of the `block_headers` / `uncle_headers` tables. -/
structure HeaderRow where
  hash : Hash
  version : Nat
  compactTarget : Nat
  timestamp : Nat
  number : Nat
  epochNumber : Nat
  epochIndex : Nat
  epochLength : Nat
  parentHash : Hash
  transactionsRoot : Hash
  proposalsHash : Hash
  unclesHash : Hash
  daoC : Nat
  daoAr : Nat
  daoS : Nat
  daoU : Nat
  nonce : Bytes
deriving DecidableEq

/-- The column values computed by `insert_header` from a `HeaderView`. -/
def headerRowOf (h : Header) : HeaderRow :=
  { hash := h.hash
    version := h.version
    compactTarget := h.compactTarget
    timestamp := h.timestamp
    number := h.number
    epochNumber := h.epochNumber
    epochIndex := h.epochIndex
    epochLength := h.epochLength
    parentHash := h.parentHash
    transactionsRoot := h.transactionsRoot
    proposalsHash := h.proposalsHash
    unclesHash := h.unclesHash
    daoC := (daoOf h.dao).1
    daoAr := (daoOf h.dao).2.1
    daoS := (daoOf h.dao).2.2.1
    daoU := (daoOf h.dao).2.2.2
    nonce := h.nonce }

/-- Row of `block_uncles` (primary key `(block_hash, uncle_hash)`). -/
structure BlockUncleRow where
  blockHash : Hash
  uncleHash : Hash
  index : Nat
deriving DecidableEq

/-- Row of `block_proposals` (primary key `(block_hash, short_id)`). -/
structure ProposalRow where
  blockHash : Hash
  shortId : Bytes
  index : Nat
deriving DecidableEq

/-- Row of `block_transactions` (primary key `(block_hash, tx_hash)`). -/
structure BlockTxRow where
  blockHash : Hash
  txHash : Hash
  index : Nat
deriving DecidableEq

/-- Row of `transactions` (primary key `hash`). -/
structure TransactionRow where
  hash : Hash
  version : Nat
deriving DecidableEq

/-- Row of `tx_cell_deps` (primary key `(ref_tx_hash, ref_index, ref_dep_index)`). -/
structure CellDepRow where
  refTxHash : Hash
  refIndex : Nat
  refDepIndex : Nat
  txHash : Hash
  index : Nat
  depType : Nat
deriving DecidableEq

/-- Row of `tx_header_deps`. -/
structure HeaderDepRow where
  refTxHash : Hash
  refIndex : Nat
  refDepIndex : Nat
  blockHash : Hash
deriving DecidableEq

/-- Row of `tx_witnesses`. -/
structure WitnessRow where
  refTxHash : Hash
  refIndex : Nat
  refDepIndex : Nat
  witness : Bytes
deriving DecidableEq

/-- Row of `cells` (primary key `(tx_hash, index)`); the three `consumed_*`
columns are nullable. -/
structure CellRow where
  txHash : Hash
  index : Nat
  capacity : Nat
  lockHash : Hash
  typeHash : Option Hash
  dataHash : Hash
  consumedTxHash : Option Hash
  consumedIndex : Option Nat
  consumedSince : Option Bytes
deriving DecidableEq

/-- Row of `cells_data` (primary key `hash`, content addressed). -/
structure DataRow where
  hash : Hash
  data : Bytes
deriving DecidableEq

/-- Row of `scripts` (primary key `hash`, content addressed). -/
structure ScriptRow where
  hash : Hash
  codeHash : Hash
  hashType : Nat
  args : Bytes
deriving DecidableEq

/-- The relational store: one list of rows per table of the schema created by
`create_tables`, plus a flag recording whether the schema exists yet. -/
structure Store where
  tablesExist : Bool
  blockHeaders : List HeaderRow
  blockUncles : List BlockUncleRow
  uncleHeaders : List HeaderRow
  blockProposals : List ProposalRow
  blockTransactions : List BlockTxRow
  transactions : List TransactionRow
  txCellDeps : List CellDepRow
  txHeaderDeps : List HeaderDepRow
  txWitnesses : List WitnessRow
  cells : List CellRow
  cellsData : List DataRow
  scripts : List ScriptRow
deriving DecidableEq

/-- `INSERT ... ON CONFLICT DO NOTHING`: append the row unless some existing
row already occupies one of its unique keys. -/
def upsertRow {α : Type} (hit : α → Bool) (row : α) (rows : List α) : List α :=
  if rows.any hit then rows else rows ++ [row]

/-- One `txn.execute` of `insert_block_header`: `block_headers` has primary key
`hash` and a `UNIQUE` constraint on `number`, both arbitrated by
`ON CONFLICT DO NOTHING`. -/
def insertBlockHeaderOp (h : Header) : Store → Store := fun s =>
  let rows := upsertRow (fun r => r.hash == h.hash || r.number == h.number)
    (headerRowOf h) s.blockHeaders
  { s with blockHeaders := rows }

/-- One `txn.execute` of `insert_uncle_header`: `uncle_headers` has only the
`hash` primary key. -/
def insertUncleHeaderOp (h : Header) : Store → Store := fun s =>
  let rows := upsertRow (fun r => r.hash == h.hash) (headerRowOf h) s.uncleHeaders
  { s with uncleHeaders := rows }

/-- The executes of `insert_block_uncles`: one insert per uncle hash, with its
enumeration position as the `index` column. -/
def insertBlockUnclesOps (blockHash : Hash) (uncleHashes : List Hash) :
    List (Store → Store) :=
  uncleHashes.enum.map (fun p => fun s =>
    let rows := upsertRow (fun r => r.blockHash == blockHash && r.uncleHash == p.2)
      { blockHash := blockHash, uncleHash := p.2, index := p.1 } s.blockUncles
    { s with blockUncles := rows })

/-- The executes of `insert_block_proposals`. -/
def insertBlockProposalsOps (blockHash : Hash) (proposals : List Bytes) :
    List (Store → Store) :=
  proposals.enum.map (fun p => fun s =>
    let rows := upsertRow (fun r => r.blockHash == blockHash && r.shortId == p.2)
      { blockHash := blockHash, shortId := p.2, index := p.1 } s.blockProposals
    { s with blockProposals := rows })

/-- The executes of `insert_block_transactions`. -/
def insertBlockTransactionsOps (blockHash : Hash) (txHashes : List Hash) :
    List (Store → Store) :=
  txHashes.enum.map (fun p => fun s =>
    let rows := upsertRow (fun r => r.blockHash == blockHash && r.txHash == p.2)
      { blockHash := blockHash, txHash := p.2, index := p.1 } s.blockTransactions
    { s with blockTransactions := rows })

/-- The executes of `insert_transaction`: cell-dep rows, header-dep rows and
witness rows scoped by `(tx_hash, ref_index, dep position)`, then the
transaction row itself. -/
def insertTransactionOps (tx : Transaction) (refIndex : Nat) :
    List (Store → Store) :=
  tx.cellDeps.enum.map (fun p => fun s =>
    let rows := upsertRow
      (fun r => r.refTxHash == tx.hash && r.refIndex == refIndex
        && r.refDepIndex == p.1)
      { refTxHash := tx.hash, refIndex := refIndex, refDepIndex := p.1,
        txHash := p.2.outPoint.txHash, index := p.2.outPoint.index,
        depType := p.2.depType }
      s.txCellDeps
    { s with txCellDeps := rows })
  ++ tx.headerDeps.enum.map (fun p => fun s =>
    let rows := upsertRow
      (fun r => r.refTxHash == tx.hash && r.refIndex == refIndex
        && r.refDepIndex == p.1)
      { refTxHash := tx.hash, refIndex := refIndex, refDepIndex := p.1,
        blockHash := p.2 }
      s.txHeaderDeps
    { s with txHeaderDeps := rows })
  ++ tx.witnesses.enum.map (fun p => fun s =>
    let rows := upsertRow
      (fun r => r.refTxHash == tx.hash && r.refIndex == refIndex
        && r.refDepIndex == p.1)
      { refTxHash := tx.hash, refIndex := refIndex, refDepIndex := p.1,
        witness := p.2 }
      s.txWitnesses
    { s with txWitnesses := rows })
  ++ [fun s =>
    let rows := upsertRow (fun r => r.hash == tx.hash)
      { hash := tx.hash, version := tx.version } s.transactions
    { s with transactions := rows }]

/-- One `txn.execute` of `consume_cells`: `UPDATE cells SET consumed_* WHERE
tx_hash = prev.tx_hash AND index = prev.index`. -/
def consumeCellOp (consumedTxHash : Hash) (consumedIndex : Nat)
    (input : CellInput) : Store → Store := fun s =>
  { s with cells := s.cells.map (fun c =>
      if c.txHash == input.previousOutput.txHash
          && c.index == input.previousOutput.index then
        { c with consumedTxHash := some consumedTxHash,
                 consumedIndex := some consumedIndex,
                 consumedSince := some (natToLe8 input.since) }
      else c) }

/-- The executes of `consume_cells`, one per input in enumeration order. -/
def consumeCellsOps (consumedTxHash : Hash) (inputs : List CellInput) :
    List (Store → Store) :=
  inputs.enum.map (fun p => consumeCellOp consumedTxHash p.1 p.2)

/-- `insert_cell_data`: upsert of the content-addressed data blob. -/
def insertCellDataOp (dataHash : Hash) (d : Bytes) : Store → Store := fun s =>
  let rows := upsertRow (fun r => r.hash == dataHash)
    { hash := dataHash, data := d } s.cellsData
  { s with cellsData := rows }

/-- `insert_script`: upsert of the content-addressed script row. -/
def insertScriptOp (scriptHash : Hash) (sc : Script) : Store → Store := fun s =>
  let rows := upsertRow (fun r => r.hash == scriptHash)
    { hash := scriptHash, codeHash := sc.codeHash,
      hashType := sc.hashType, args := sc.args } s.scripts
  { s with scripts := rows }

/-- The cell-row insert of one iteration of the `insert_cells` loop. -/
def insertCellRowOp (txHash : Hash) (index : Nat) (output : CellOutput)
    (d : Bytes) : Store → Store := fun s =>
  let rows := upsertRow (fun r => r.txHash == txHash && r.index == index)
    { txHash := txHash, index := index, capacity := output.capacity,
      lockHash := calcScriptHash output.lock,
      typeHash := (match output.typeScript with
        | some ts => some (calcScriptHash ts)
        | none => none),
      dataHash := calcDataHash d,
      consumedTxHash := none, consumedIndex := none,
      consumedSince := none }
    s.cells
  { s with cells := rows }

/-- The executes of one iteration of the `insert_cells` loop: data blob, lock
script, optional type script, then the cell row. -/
def insertCellOps (txHash : Hash) (index : Nat) (output : CellOutput)
    (d : Bytes) : List (Store → Store) :=
  [insertCellDataOp (calcDataHash d) d,
   insertScriptOp (calcScriptHash output.lock) output.lock]
  ++ (match output.typeScript with
      | some ts => [insertScriptOp (calcScriptHash ts) ts]
      | none => [])
  ++ [insertCellRowOp txHash index output d]

/-- The executes of `insert_cells`: `outputs.zip(outputs_data)` enumerated. -/
def insertCellsOps (txHash : Hash) (outputs : List CellOutput)
    (outputsData : List Bytes) : List (Store → Store) :=
  (outputs.zip outputsData).enum.flatMap
    (fun p => insertCellOps txHash p.1 p.2.1 p.2.2)

/-- All statements executed by `insert_block` inside its transaction, after
the block header: uncle links, uncle headers with their proposals, the block's
proposals, block-transaction links, then per transaction the dep/witness/row
inserts, the consume updates (skipped for the cellbase at position 0) and the
cell inserts. -/
def insertBlockRestOps (b : Block) : List (Store → Store) :=
  insertBlockUnclesOps b.hash b.uncleHashes
  ++ b.uncles.flatMap (fun u =>
      insertUncleHeaderOp u.header
        :: insertBlockProposalsOps u.header.hash u.proposals)
  ++ insertBlockProposalsOps b.hash b.proposals
  ++ insertBlockTransactionsOps b.hash b.txHashes
  ++ b.transactions.enum.flatMap (fun p =>
      insertTransactionOps p.2 p.1
      ++ (if p.1 ≠ 0 then consumeCellsOps p.2.hash p.2.inputs else [])
      ++ insertCellsOps p.2.hash p.2.outputs p.2.outputsData)

/-- Every statement of the `insert_block` transaction, in execution order. -/
def insertBlockOps (b : Block) : List (Store → Store) :=
  insertBlockHeaderOp b.header :: insertBlockRestOps b

/-- Run a sequence of statements against the store. -/
def applyOps (s : Store) (ops : List (Store → Store)) : Store :=
  ops.foldl (fun st f => f st) s

/-- Models `verify_block`: `SELECT 1 FROM block_headers WHERE number = $1 AND
hash = $2` with `$1 = header.number as i64 - 1` and `$2 = header.parent_hash`;
true iff a row was found. -/
def verify_block (s : Store) (h : Header) : Bool :=
  s.blockHeaders.any (fun r =>
    ((r.number : Int) == (h.number : Int) - 1) && r.hash == h.parentHash)

/-- Models `kernel::error::Error`. -/
inductive KError where
  | db : KError
  | dataErr : String → KError
  | unknownParentBlock : Nat → Hash → KError
deriving DecidableEq

/-- Models `insert_block`: the parent check runs outside the transaction; on
failure the call returns `UnknownParentBlock(number - 1, parent_hash)` without
touching the store, otherwise every statement is executed and committed. -/
def insert_block (s : Store) (b : Block) : Except KError Store :=
  if 0 < b.header.number ∧ verify_block s b.header = false then
    .error (.unknownParentBlock (b.header.number - 1) b.header.parentHash)
  else
    .ok (applyOps s (insertBlockOps b))

/-- Run the transaction statements one by one; `fail k = true` means statement
number `k` (or, at `k = length`, the final `COMMIT`) fails and the transaction
aborts.  The abort discards the pending state. -/
def runTxnOps : List (Store → Store) → (Nat → Bool) → Nat → Store → Option Store
  | [], fail, k, s => if fail k then none else some s
  | f :: fs, fail, k, s => if fail k then none else runTxnOps fs fail (k + 1) (f s)

/-- The store a caller observes after `insert_block` under failure schedule
`fail`: the parent-check error returns before the transaction is opened, an
aborted transaction leaves the store as it was, and only a full commit
publishes the new rows. -/
def insertBlockCommitted (s : Store) (b : Block) (fail : Nat → Bool) : Store :=
  if 0 < b.header.number ∧ verify_block s b.header = false then s
  else
    match runTxnOps (insertBlockOps b) fail 0 s with
    | some s1 => s1
    | none => s

/-- Models `query_block_hash`: `SELECT hash FROM block_headers WHERE number =
$1` (`number` is UNIQUE, so at most one row). -/
def query_block_hash (s : Store) (number : Nat) : Option Hash :=
  (s.blockHeaders.find? (fun r => r.number == number)).map (·.hash)

/-- Models `remove_block_transactions`: `DELETE FROM block_transactions WHERE
block_hash = $1 RETURNING tx_hash`. -/
def remove_block_transactions (s : Store) (blockHash : Hash) :
    List Hash × Store :=
  ((s.blockTransactions.filter (fun r => r.blockHash == blockHash)).map
      (·.txHash),
   { s with blockTransactions :=
      s.blockTransactions.filter (fun r => !(r.blockHash == blockHash)) })

/-- Models `remove_transaction`: delete the dep and witness rows for every
occurrence of this tx hash, and the transaction row itself. -/
def remove_transaction (s : Store) (txHash : Hash) : Store :=
  { s with
    txCellDeps := s.txCellDeps.filter (fun r => !(r.refTxHash == txHash)),
    txHeaderDeps := s.txHeaderDeps.filter (fun r => !(r.refTxHash == txHash)),
    txWitnesses := s.txWitnesses.filter (fun r => !(r.refTxHash == txHash)),
    transactions := s.transactions.filter (fun r => !(r.hash == txHash)) }

/-- Models `restore_cells`: `UPDATE cells SET consumed_* = null WHERE
consumed_tx_hash = $1`. -/
def restore_cells (s : Store) (txHash : Hash) : Store :=
  { s with cells := s.cells.map (fun c =>
      if c.consumedTxHash == some txHash then
        { c with consumedTxHash := none, consumedIndex := none,
                 consumedSince := none }
      else c) }

/-- Models `remove_cell_data`: delete the blob only if no remaining cell
references it (`NOT EXISTS (SELECT 1 FROM cells c WHERE c.data_hash = hash)`). -/
def remove_cell_data (s : Store) (dataHash : Hash) : Store :=
  if s.cells.any (fun c => c.dataHash == dataHash) then s
  else { s with cellsData := s.cellsData.filter (fun r => !(r.hash == dataHash)) }

/-- Models `remove_script`: delete the script only if no remaining cell
references it through `lock_hash` or `type_hash`. -/
def remove_script (s : Store) (scriptHash : Hash) : Store :=
  if s.cells.any (fun c => c.lockHash == scriptHash
      || c.typeHash == some scriptHash) then s
  else { s with scripts := s.scripts.filter (fun r => !(r.hash == scriptHash)) }

/-- One iteration of the loop at the end of `remove_cells`: conditionally
delete the removed cell's data blob, its lock script, and (when present) its
type script. -/
def gcCellStep (st : Store) (c : CellRow) : Store :=
  let st1 := remove_cell_data st c.dataHash
  let st2 := remove_script st1 c.lockHash
  match c.typeHash with
  | some th => remove_script st2 th
  | none => st2

/-- The loop at the end of `remove_cells` over the returned hashes. -/
def removeCellsGc (removed : List CellRow) (s : Store) : Store :=
  removed.foldl gcCellStep s

/-- Models `remove_cells`: `DELETE FROM cells WHERE tx_hash = $1 RETURNING
data_hash, lock_hash, type_hash`, then the conditional garbage collection. -/
def remove_cells (s : Store) (txHash : Hash) : Store :=
  let removed := s.cells.filter (fun c => c.txHash == txHash)
  removeCellsGc removed
    { s with cells := s.cells.filter (fun c => !(c.txHash == txHash)) }

/-- Models `remove_block_proposals`: the delete is guarded by `NOT EXISTS` of
both a block header and an uncle link with this container hash. -/
def remove_block_proposals (s : Store) (blockHash : Hash) : Store :=
  if s.blockHeaders.any (fun bh => bh.hash == blockHash)
      || s.blockUncles.any (fun bu => bu.uncleHash == blockHash) then s
  else
    { s with blockProposals :=
        s.blockProposals.filter (fun r => !(r.blockHash == blockHash)) }

/-- Models `remove_block_uncles`: `DELETE FROM block_uncles WHERE block_hash =
$1 RETURNING uncle_hash`. -/
def remove_block_uncles (s : Store) (blockHash : Hash) : List Hash × Store :=
  ((s.blockUncles.filter (fun r => r.blockHash == blockHash)).map (·.uncleHash),
   { s with blockUncles :=
      s.blockUncles.filter (fun r => !(r.blockHash == blockHash)) })

/-- Models `remove_uncle_header`: delete only when no remaining `block_uncles`
link still references this uncle hash. -/
def remove_uncle_header (s : Store) (uncleHash : Hash) : Store :=
  if s.blockUncles.any (fun bu => bu.uncleHash == uncleHash) then s
  else { s with uncleHeaders := s.uncleHeaders.filter (fun r => !(r.hash == uncleHash)) }

/-- Models `remove_block_header`: `DELETE FROM block_headers WHERE hash = $1`. -/
def remove_block_header (s : Store) (blockHash : Hash) : Store :=
  { s with blockHeaders := s.blockHeaders.filter (fun r => !(r.hash == blockHash)) }

/-- The body of the per-transaction loop of `remove_block`. -/
def removeTxStep (st : Store) (txHash : Hash) : Store :=
  remove_cells (restore_cells (remove_transaction st txHash) txHash) txHash

/-- The body of the per-uncle loop of `remove_block`. -/
def removeUncleStep (st : Store) (uncleHash : Hash) : Store :=
  remove_block_proposals (remove_uncle_header st uncleHash) uncleHash

/-- Models `remove_block`: a no-op when no block header is stored at that
height, otherwise the deletes in source order. -/
def remove_block (s : Store) (number : Nat) : Store :=
  match query_block_hash s number with
  | none => s
  | some blockHash =>
    let p := remove_block_transactions s blockHash
    let s2 := p.1.foldl removeTxStep p.2
    let s3 := remove_block_proposals s2 blockHash
    let q := remove_block_uncles s3 blockHash
    let s4 := q.1.foldl removeUncleStep q.2
    remove_block_header s4 blockHash

/-- The tx hashes captured by `remove_block`'s `DELETE ... RETURNING` for the
block stored at `number`. -/
def capturedTxHashes (s : Store) (number : Nat) : List Hash :=
  match query_block_hash s number with
  | none => []
  | some blockHash => (remove_block_transactions s blockHash).1

/-- Models `is_first_run`: the probe query fails with `UNDEFINED_TABLE`
exactly when the schema has never been created. -/
def is_first_run (s : Store) : Bool := !s.tablesExist

/-- Models `create_tables`: `CREATE TABLE IF NOT EXISTS ...` for each table;
existing rows are never touched. -/
def create_tables (s : Store) : Store := { s with tablesExist := true }

/-- Models `check_current_block`: `SELECT MAX(number) FROM block_headers`,
`NULL` when the table is empty. -/
def check_current_block (s : Store) : Option Nat :=
  (s.blockHeaders.map (·.number)).max?

/-- Models the `initialize` entry point of the `BaseData` trait: create the
schema on first run, then report the current maximum block height. -/
def storageInit (s : Store) : Option Nat × Store :=
  let s1 := if is_first_run s then create_tables s else s
  (check_current_block s1, s1)

/-- Insert a list of blocks in order, stopping at the first error (the
"insert blocks 0..N in order" scenario of the spec). -/
def insertChain (s : Store) : List Block → Option Store
  | [] => some s
  | b :: bs =>
    match insert_block s b with
    | .ok s1 => insertChain s1 bs
    | .error _ => none

/-- Where the sync controller's control flow currently stands: about to fetch
the tip, inside the ingest loop at height `i` with target `tip`, or stopped by
a fatal (non-fork) error. -/
inductive SyncPhase where
  | fetchTip : SyncPhase
  | syncBlock : Nat → Nat → SyncPhase
  | halted : SyncPhase
deriving DecidableEq

/-- The controller state of `subcmd::sync::execute`: the store, the `next`
cursor, the `failed_cnt` and `retry_cnt` counters, and the control point. -/
structure SyncState where
  store : Store
  next : Nat
  failedCnt : Nat
  retryCnt : Nat
  phase : SyncPhase
deriving DecidableEq

/-- A response of the remote chain-data source. -/
inductive RemoteEvent where
  | tipOk : Nat → RemoteEvent
  | tipErr : RemoteEvent
  | blockOk : Block → RemoteEvent
  | blockAbsent : RemoteEvent
  | blockErr : RemoteEvent
deriving DecidableEq

/-- The externally visible effect of one controller step. -/
inductive SyncAction where
  | sleep : Nat → SyncAction
  | nop : SyncAction
deriving DecidableEq

/-- One step of the `execute` loop in `src/utils/src/subcmd/sync.rs`, driven
by the next remote-source response.  Mirrors the source: squared capped
backoff on transport errors, idle backoff when `tip < next`, the ingest loop
over heights `next..=tip`, single-block rollback on `UnknownParentBlock`, and
`next = tip + 1` when the loop ends without a rollback. -/
def syncStep (st : SyncState) (ev : RemoteEvent) : SyncState × SyncAction :=
  match st.phase, ev with
  | .fetchTip, .tipErr =>
    let f := st.failedCnt + 1
    ({ st with failedCnt := f }, .sleep (min (f * f) 90))
  | .fetchTip, .tipOk tip =>
    if tip < st.next then
      ({ st with failedCnt := 0, retryCnt := st.retryCnt + 1 },
       .sleep (min (st.retryCnt + 1) 10))
    else
      ({ st with failedCnt := 0, retryCnt := 0,
                 phase := .syncBlock st.next tip }, .nop)
  | .syncBlock _ _, .blockErr =>
    let f := st.failedCnt + 1
    ({ st with failedCnt := f }, .sleep (min (f * f) 90))
  | .syncBlock _ tip, .blockAbsent =>
    ({ st with failedCnt := 0, next := tip + 1, phase := .fetchTip }, .nop)
  | .syncBlock i tip, .blockOk b =>
    (match insert_block st.store b with
     | .error (.unknownParentBlock n _) =>
       ({ st with store := remove_block st.store n, next := n,
                  phase := .fetchTip }, .nop)
     | .error _ => ({ st with phase := .halted }, .nop)
     | .ok s1 =>
       if tip < i + 1 then
         ({ st with store := s1, failedCnt := 0, next := tip + 1,
                    phase := .fetchTip }, .nop)
       else
         ({ st with store := s1, failedCnt := 0,
                    phase := .syncBlock (i + 1) tip }, .nop))
  | _, _ => (st, .nop)

/-! ### Test fixtures -/

/-- A store with the schema created and every table empty. -/
def emptyStore : Store :=
  { tablesExist := true, blockHeaders := [], blockUncles := [],
    uncleHeaders := [], blockProposals := [], blockTransactions := [],
    transactions := [], txCellDeps := [], txHeaderDeps := [], txWitnesses := [],
    cells := [], cellsData := [], scripts := [] }

/-- A header fixture with the given hash, height and parent hash. -/
def mkHeader (hash number parentHash : Nat) : Header :=
  { hash := hash, version := 0, compactTarget := 0, timestamp := 0,
    number := number, epochNumber := 0, epochIndex := 0, epochLength := 0,
    parentHash := parentHash, transactionsRoot := 0, proposalsHash := 0,
    unclesHash := 0, dao := List.replicate 32 0, nonce := [] }

/-- A block fixture with no uncles, proposals or transactions. -/
def mkBlock (h : Header) : Block :=
  { header := h, uncles := [], proposals := [], transactions := [] }

/-! ### Helper lemmas -/

theorem verify_block_iff (s : Store) (h : Header) (hn : 0 < h.number) :
    verify_block s h = true ↔
      ∃ r ∈ s.blockHeaders, r.number = h.number - 1 ∧ r.hash = h.parentHash := by
  simp only [verify_block, List.any_eq_true, Bool.and_eq_true, beq_iff_eq]
  constructor
  · rintro ⟨r, hr, h1, h2⟩
    exact ⟨r, hr, by omega, h2⟩
  · rintro ⟨r, hr, h1, h2⟩
    exact ⟨r, hr, by omega, h2⟩

/-- C1: For every block of height H > 0, `insert_block` succeeds exactly when
a stored block Header has height H − 1 and hash equal to the candidate's
declared parent hash; otherwise it fails with `UnknownParentBlock` carrying
exactly (H − 1, parent hash).  A block of height 0 skips the parent check and
is accepted unconditionally. -/
theorem c1_insert_block_parent_check (s : Store) (b : Block) :
    (b.header.number = 0 →
      insert_block s b = .ok (applyOps s (insertBlockOps b)))
  ∧ (0 < b.header.number →
      (((∃ s1, insert_block s b = .ok s1) ↔
          ∃ r ∈ s.blockHeaders,
            r.number = b.header.number - 1 ∧ r.hash = b.header.parentHash)
      ∧ (¬ (∃ r ∈ s.blockHeaders,
            r.number = b.header.number - 1 ∧ r.hash = b.header.parentHash) →
          insert_block s b =
            .error (.unknownParentBlock (b.header.number - 1)
              b.header.parentHash)))) := by
  constructor
  · intro h0
    simp [insert_block, h0]
  · intro hpos
    have hiff := verify_block_iff s b.header hpos
    by_cases hv : verify_block s b.header = true
    · have hok : insert_block s b = .ok (applyOps s (insertBlockOps b)) := by
        simp [insert_block, hv]
      refine ⟨?_, fun hne => absurd (hiff.mp hv) hne⟩
      simp only [hok]
      constructor
      · intro _
        exact hiff.mp hv
      · intro _
        exact ⟨_, rfl⟩
    · have hv' : verify_block s b.header = false := by
        simpa using hv
      have herr : insert_block s b =
          .error (.unknownParentBlock (b.header.number - 1)
            b.header.parentHash) := by
        simp [insert_block, hpos, hv']
      refine ⟨?_, fun _ => herr⟩
      simp only [herr]
      constructor
      · rintro ⟨s1, hs1⟩
        cases hs1
      · intro hex
        exact absurd (hiff.mpr hex) hv

/-- A block at height 2 whose parent hash 55 is nowhere stored. -/
def blk2bad : Block := mkBlock (mkHeader 102 2 55)

theorem c1_insert_block_parent_check_witness :
    insert_block emptyStore blk2bad = .error (.unknownParentBlock 1 55) :=
  (c1_insert_block_parent_check emptyStore blk2bad).2 (by decide) |>.2 (by decide)

/-- Controller state in the ingest loop at height 5 with tip 5 and
`next = 3`. -/
def stAbsent : SyncState :=
  { store := emptyStore, next := 3, failedCnt := 0, retryCnt := 0,
    phase := .syncBlock 5 5 }

/-- C6 counterexample: when the fetch of height 5 (tip 5) reports the block
absent, the controller sets `next` to `tip + 1 = 6`; it does not leave the
cursor at the absent height 5 as the claim states, so the next tip-fetch
cycle does not re-evaluate from height 5. -/
theorem c6_counterexample :
    (syncStep stAbsent .blockAbsent).1.next = 6
    ∧ (syncStep stAbsent .blockAbsent).1.next ≠ 5 := by
  constructor
  · rfl
  · decide

/-- C6 (amended): when the remote source reports the block absent, the
controller stops the ingest loop early (back to the tip-fetch phase, store
untouched), resets the failure counter, and sets `next_height` to `tip + 1`
exactly as on normal completion; the skipped heights are recovered later
through the fork-rollback path. -/
theorem c6_absent_stops_loop (st : SyncState) (i tip : Nat)
    (hph : st.phase = .syncBlock i tip) :
    syncStep st .blockAbsent =
      ({ st with failedCnt := 0, next := tip + 1, phase := .fetchTip },
       .nop) := by
  cases st with
  | mk store next failedCnt retryCnt phase =>
    cases phase with
    | fetchTip => cases hph
    | halted => cases hph
    | syncBlock i' tip' =>
      cases hph
      rfl

theorem c6_absent_stops_loop_witness :
    syncStep stAbsent .blockAbsent =
      ({ stAbsent with failedCnt := 0, next := 6, phase := .fetchTip },
       .nop) :=
  c6_absent_stops_loop stAbsent 5 5 rfl

/-- C7: when `insert_block` reports `UnknownParentBlock (n, h)` the controller
removes exactly the block at height `n` (one `remove_block` call), sets
`next_height` to `n`, and goes back to the tip-fetch step, ending this pass;
a deeper fork is therefore resolved only one height per pass. -/
theorem c7_fork_single_rollback (st : SyncState) (i tip n : Nat) (h : Hash)
    (b : Block) (hph : st.phase = .syncBlock i tip)
    (herr : insert_block st.store b = .error (.unknownParentBlock n h)) :
    syncStep st (.blockOk b) =
      ({ st with store := remove_block st.store n, next := n,
                 phase := .fetchTip }, .nop) := by
  cases st with
  | mk store next failedCnt retryCnt phase =>
    cases phase with
    | fetchTip => cases hph
    | halted => cases hph
    | syncBlock i' tip' =>
      cases hph
      simp only [syncStep]
      rw [show (insert_block store b) =
        .error (.unknownParentBlock n h) from herr]

/-- Controller state in the ingest loop at height 2 with tip 5 and three
accumulated transport failures. -/
def stFork : SyncState :=
  { store := emptyStore, next := 2, failedCnt := 3, retryCnt := 0,
    phase := .syncBlock 2 5 }

theorem c7_fork_single_rollback_witness :
    syncStep stFork (.blockOk blk2bad) =
      ({ stFork with store := remove_block emptyStore 1, next := 1,
                     phase := .fetchTip }, .nop) :=
  c7_fork_single_rollback stFork 2 5 1 55 blk2bad rfl rfl

/-- C8 counterexample: from a state with `failed_cnt = 3`, a successful block
fetch whose insertion detects a fork leaves the consecutive-failures counter
at 3; the claim that "on any success the failures counter resets to 0" fails
here. -/
theorem c8_counterexample :
    (syncStep stFork (.blockOk blk2bad)).1.failedCnt = 3
    ∧ (3 : Nat) ≠ 0 := by
  constructor
  · rfl
  · decide

/-- C8 (amended): on every transport failure (tip fetch or block fetch) the
controller increments the consecutive-failures counter and sleeps exactly
`min(failures², 90)` seconds before retrying the same operation without
advancing; on a successful fetch the counter resets to 0 — except that a
fetched block whose insertion reports a fork leaves the counter unchanged.
When `tip < next_height` it increments the consecutive-idle counter and
sleeps exactly `min(idle, 10)` seconds; the idle counter resets to 0 once
`tip ≥ next_height`. -/
theorem c8_backoff_policy (st : SyncState) (i tip : Nat) (b : Block) :
    (st.phase = .fetchTip →
      syncStep st .tipErr =
        ({ st with failedCnt := st.failedCnt + 1 },
         .sleep (min ((st.failedCnt + 1) * (st.failedCnt + 1)) 90)))
  ∧ (st.phase = .syncBlock i tip →
      syncStep st .blockErr =
        ({ st with failedCnt := st.failedCnt + 1 },
         .sleep (min ((st.failedCnt + 1) * (st.failedCnt + 1)) 90)))
  ∧ (st.phase = .fetchTip → tip < st.next →
      syncStep st (.tipOk tip) =
        ({ st with failedCnt := 0, retryCnt := st.retryCnt + 1 },
         .sleep (min (st.retryCnt + 1) 10)))
  ∧ (st.phase = .fetchTip → st.next ≤ tip →
      syncStep st (.tipOk tip) =
        ({ st with failedCnt := 0, retryCnt := 0,
                   phase := .syncBlock st.next tip }, .nop))
  ∧ (st.phase = .syncBlock i tip → ∀ s1, insert_block st.store b = .ok s1 →
      (syncStep st (.blockOk b)).1.failedCnt = 0)
  ∧ (st.phase = .syncBlock i tip →
      (syncStep st .blockAbsent).1.failedCnt = 0)
  ∧ (st.phase = .syncBlock i tip →
      ∀ n h, insert_block st.store b = .error (.unknownParentBlock n h) →
      (syncStep st (.blockOk b)).1.failedCnt = st.failedCnt) := by
  cases st with
  | mk store next failedCnt retryCnt phase =>
    refine ⟨?_, ?_, ?_, ?_, ?_, ?_, ?_⟩
    · intro hph
      cases phase with
      | fetchTip => rfl
      | syncBlock i' tip' => cases hph
      | halted => cases hph
    · intro hph
      cases phase with
      | fetchTip => cases hph
      | halted => cases hph
      | syncBlock i' tip' => cases hph; rfl
    · intro hph hlt
      cases phase with
      | fetchTip => simp only [syncStep]; rw [if_pos hlt]
      | syncBlock i' tip' => cases hph
      | halted => cases hph
    · intro hph hle
      cases phase with
      | fetchTip => simp only [syncStep]; rw [if_neg (Nat.not_lt.mpr hle)]
      | syncBlock i' tip' => cases hph
      | halted => cases hph
    · intro hph s1 hok
      cases phase with
      | fetchTip => cases hph
      | halted => cases hph
      | syncBlock i' tip' =>
        cases hph
        have hok' : insert_block store b = Except.ok s1 := hok
        simp only [syncStep, hok']
        split <;> rfl
    · intro hph
      cases phase with
      | fetchTip => cases hph
      | halted => cases hph
      | syncBlock i' tip' => cases hph; rfl
    · intro hph n h herr
      cases phase with
      | fetchTip => cases hph
      | halted => cases hph
      | syncBlock i' tip' =>
        cases hph
        have herr' : insert_block store b =
          Except.error (KError.unknownParentBlock n h) := herr
        simp only [syncStep, herr']

/-- Controller state about to fetch the tip with two accumulated failures. -/
def stTip : SyncState :=
  { store := emptyStore, next := 4, failedCnt := 2, retryCnt := 1,
    phase := .fetchTip }

theorem c8_backoff_policy_witness :
    (syncStep stTip .tipErr = ({ stTip with failedCnt := 3 }, .sleep 9))
    ∧ (syncStep stTip (.tipOk 3) =
        ({ stTip with failedCnt := 0, retryCnt := 2 }, .sleep 2)) := by
  have h := c8_backoff_policy stTip 0 3 blk2bad
  exact ⟨h.1 rfl, h.2.2.1 rfl (by decide)⟩

/-- A genesis block (height 0, parent hash 99 nowhere stored) carrying one
proposal short id. -/
def blk0p : Block :=
  { header := mkHeader 100 0 99, uncles := [], proposals := [[7]],
    transactions := [] }

/-- C3: the round-trip property fails on the code.  `remove_block` calls
`remove_block_proposals` for the block's own hash before deleting the block
header, so the `NOT EXISTS (SELECT 1 FROM block_headers ...)` guard is always
false and the block's own proposal rows are never deleted: inserting a block
with one proposal into an empty store and removing it leaves that proposal
row behind, so the store does not return to its pre-insertion state. -/
theorem c3_roundtrip_leaves_own_proposals :
    ∃ s1, insert_block emptyStore blk0p = .ok s1
      ∧ (remove_block s1 0).blockProposals =
          [{ blockHash := 100, shortId := [7], index := 0 }]
      ∧ emptyStore.blockProposals = []
      ∧ remove_block s1 0 ≠ emptyStore := by
  refine ⟨applyOps emptyStore (insertBlockOps blk0p), rfl, by decide, rfl,
    by decide⟩

theorem runTxnOps_some (ops : List (Store → Store)) (fail : Nat → Bool) :
    ∀ (k : Nat) (s s1 : Store),
      runTxnOps ops fail k s = some s1 → s1 = applyOps s ops := by
  induction ops with
  | nil =>
    intro k s s1 h
    unfold runTxnOps at h
    split at h
    · cases h
    · cases h
      rfl
  | cons f fs ih =>
    intro k s s1 h
    unfold runTxnOps at h
    split at h
    · cases h
    · exact ih (k + 1) (f s) s1 h

/-- C2: `insert_block` is atomic.  Under any failure schedule for the
transaction's statements (including the commit), the caller-observed store is
either exactly the pre-call store — in particular on the parent-hash-mismatch
error, which returns before the transaction opens, and on any aborted
transaction — or the store with every derived row of the block applied. -/
theorem c2_insert_block_atomic (s : Store) (b : Block) (fail : Nat → Bool) :
    (∀ e, insert_block s b = .error e → insertBlockCommitted s b fail = s)
  ∧ (runTxnOps (insertBlockOps b) fail 0 s = none →
      insertBlockCommitted s b fail = s)
  ∧ (insertBlockCommitted s b fail = s ∨
      insertBlockCommitted s b fail = applyOps s (insertBlockOps b)) := by
  by_cases hchk : (0 < b.header.number ∧ verify_block s b.header = false)
  · have hcom : insertBlockCommitted s b fail = s := by
      unfold insertBlockCommitted
      rw [if_pos hchk]
    exact ⟨fun e _ => hcom, fun _ => hcom, Or.inl hcom⟩
  · have hins : insert_block s b = .ok (applyOps s (insertBlockOps b)) := by
      unfold insert_block
      rw [if_neg hchk]
    cases hrun : runTxnOps (insertBlockOps b) fail 0 s with
    | none =>
      have hcom : insertBlockCommitted s b fail = s := by
        unfold insertBlockCommitted
        rw [if_neg hchk, hrun]
      exact ⟨fun e _ => hcom, fun _ => hcom, Or.inl hcom⟩
    | some s1 =>
      have hcom : insertBlockCommitted s b fail = s1 := by
        unfold insertBlockCommitted
        rw [if_neg hchk, hrun]
      have hs1 : s1 = applyOps s (insertBlockOps b) :=
        runTxnOps_some _ fail 0 s s1 hrun
      refine ⟨fun e he => ?_, fun hn => ?_, Or.inr (hcom.trans hs1)⟩
      · rw [hins] at he
        cases he
      · exact Option.noConfusion hn

/-- A well-formed genesis block fixture. -/
def genesisB : Block := mkBlock (mkHeader 100 0 99)

theorem c2_insert_block_atomic_witness :
    (insertBlockCommitted emptyStore blk2bad (fun _ => false) = emptyStore)
    ∧ (insertBlockCommitted emptyStore genesisB (fun _ => true) = emptyStore) :=
  ⟨(c2_insert_block_atomic emptyStore blk2bad (fun _ => false)).1
      (.unknownParentBlock 1 55) rfl,
   (c2_insert_block_atomic emptyStore genesisB (fun _ => true)).2.1 rfl⟩

/-! ### Frame lemmas for the garbage-collecting deletes -/

theorem remove_cell_data_cells (s : Store) (x : Hash) :
    (remove_cell_data s x).cells = s.cells := by
  unfold remove_cell_data
  split <;> rfl

theorem remove_script_cells (s : Store) (x : Hash) :
    (remove_script s x).cells = s.cells := by
  unfold remove_script
  split <;> rfl

theorem remove_script_cellsData (s : Store) (x : Hash) :
    (remove_script s x).cellsData = s.cellsData := by
  unfold remove_script
  split <;> rfl

theorem gcCellStep_cells (st : Store) (c : CellRow) :
    (gcCellStep st c).cells = st.cells := by
  unfold gcCellStep
  cases htc : c.typeHash <;>
    simp [htc, remove_script_cells, remove_cell_data_cells]

theorem removeCellsGc_cells (l : List CellRow) :
    ∀ st : Store, (removeCellsGc l st).cells = st.cells := by
  induction l with
  | nil => intro st; rfl
  | cons c l ih =>
    intro st
    show (removeCellsGc l (gcCellStep st c)).cells = st.cells
    rw [ih, gcCellStep_cells]

theorem remove_cells_cells (s : Store) (t : Hash) :
    (remove_cells s t).cells = s.cells.filter (fun c => !(c.txHash == t)) := by
  unfold remove_cells
  rw [removeCellsGc_cells]

theorem remove_cell_data_cellsData_subset (s : Store) (x : Hash) (r : DataRow)
    (hr : r ∈ (remove_cell_data s x).cellsData) : r ∈ s.cellsData := by
  unfold remove_cell_data at hr
  split at hr
  · exact hr
  · exact List.mem_of_mem_filter hr

theorem gcCellStep_cellsData_subset (st : Store) (c : CellRow) (r : DataRow)
    (hr : r ∈ (gcCellStep st c).cellsData) : r ∈ st.cellsData := by
  unfold gcCellStep at hr
  cases htc : c.typeHash <;> rw [htc] at hr <;>
    simp only [remove_script_cellsData] at hr <;>
    exact remove_cell_data_cellsData_subset _ _ _ hr

theorem removeCellsGc_cellsData_subset (l : List CellRow) :
    ∀ (st : Store) (r : DataRow),
      r ∈ (removeCellsGc l st).cellsData → r ∈ st.cellsData := by
  induction l with
  | nil => intro st r hr; exact hr
  | cons c l ih =>
    intro st r hr
    exact gcCellStep_cellsData_subset st c r
      (ih (gcCellStep st c) r hr)

/-- A data row stays as long as some remaining cell references its hash. -/
theorem remove_cell_data_keeps (st : Store) (x : Hash) (r : DataRow)
    (hr : r ∈ st.cellsData) (href : ∃ c ∈ st.cells, c.dataHash = r.hash) :
    r ∈ (remove_cell_data st x).cellsData := by
  unfold remove_cell_data
  split
  · exact hr
  · next hany =>
    apply List.mem_filter.mpr
    refine ⟨hr, ?_⟩
    simp only [Bool.not_eq_true', beq_eq_false_iff_ne, ne_eq]
    intro hxr
    apply hany
    obtain ⟨c, hc, hcd⟩ := href
    exact List.any_eq_true.mpr ⟨c, hc, by simp [hcd, hxr]⟩

theorem gcCellStep_keeps (st : Store) (c : CellRow) (r : DataRow)
    (hr : r ∈ st.cellsData) (href : ∃ c2 ∈ st.cells, c2.dataHash = r.hash) :
    r ∈ (gcCellStep st c).cellsData := by
  unfold gcCellStep
  cases htc : c.typeHash <;>
    simp only [remove_script_cellsData] <;>
    exact remove_cell_data_keeps st _ r hr href

theorem removeCellsGc_keeps (l : List CellRow) :
    ∀ (st : Store) (r : DataRow), r ∈ st.cellsData →
      (∃ c2 ∈ st.cells, c2.dataHash = r.hash) →
      r ∈ (removeCellsGc l st).cellsData := by
  induction l with
  | nil => intro st r hr _; exact hr
  | cons c l ih =>
    intro st r hr href
    refine ih (gcCellStep st c) r (gcCellStep_keeps st c r hr href) ?_
    rw [gcCellStep_cells]
    exact href

/-- Once no remaining cell references the hash and some removed cell returns
it, the garbage collection deletes every data row with that hash. -/
theorem removeCellsGc_deletes (l : List CellRow) :
    ∀ (st : Store) (hd : Hash),
      (∀ c ∈ st.cells, c.dataHash ≠ hd) →
      (∃ c ∈ l, c.dataHash = hd) →
      ∀ r ∈ (removeCellsGc l st).cellsData, r.hash ≠ hd := by
  induction l with
  | nil =>
    intro st hd _ hwit
    obtain ⟨c, hc, _⟩ := hwit
    cases hc
  | cons c l ih =>
    intro st hd hunref hwit r hr
    by_cases hcd : c.dataHash = hd
    · -- this step deletes all rows with hash hd; later steps only shrink
      have habs : ∀ r1 ∈ (gcCellStep st c).cellsData, r1.hash ≠ hd := by
        intro r1 hr1
        unfold gcCellStep at hr1
        cases htc : c.typeHash <;> rw [htc] at hr1 <;>
          simp only [remove_script_cellsData] at hr1 <;>
        · unfold remove_cell_data at hr1
          split at hr1
          · next hany =>
            exfalso
            obtain ⟨cw, hcw, hcwd⟩ := List.any_eq_true.mp hany
            exact hunref cw hcw (by rw [hcd] at hcwd; exact (beq_iff_eq.mp hcwd).symm ▸ rfl)
          · have := List.mem_filter.mp hr1
            have h2 := this.2
            simp only [Bool.not_eq_true', beq_eq_false_iff_ne, ne_eq] at h2
            rw [hcd] at h2
            exact h2
      exact habs r (removeCellsGc_cellsData_subset l _ r hr)
    · refine ih (gcCellStep st c) hd ?_ ?_ r hr
      · rw [gcCellStep_cells]
        exact hunref
      · obtain ⟨cw, hcw, hcwd⟩ := hwit
        cases hcw with
        | head => exact absurd hcwd hcd
        | tail _ htail => exact ⟨cw, htail, hcwd⟩

/-- C5: content-addressed deduplication with reference-counted deletion.
Inserting the same byte-identical output data twice yields exactly one
`cells_data` row keyed by the content hash; removing the cells of one
transaction keeps the blob while a cell of another transaction still
references it; removing both transactions' cells deletes it.  A script row is
likewise deleted only when no remaining cell references it through `lock_hash`
or `type_hash`. -/
theorem c5_dedup_refcount (s : Store) (d : Bytes) (h t1 t2 : Hash)
    (c2 : CellRow) :
    ((∀ r ∈ s.cellsData, r.hash ≠ calcDataHash d) →
      ((insertCellDataOp (calcDataHash d) d
          (insertCellDataOp (calcDataHash d) d s)).cellsData.filter
        (fun r => r.hash == calcDataHash d)).length = 1)
  ∧ (c2 ∈ s.cells → c2.txHash ≠ t1 → c2.dataHash = calcDataHash d →
      ∀ r ∈ s.cellsData, r.hash = calcDataHash d →
        r ∈ (remove_cells s t1).cellsData)
  ∧ (c2 ∈ s.cells → c2.txHash = t2 → t2 ≠ t1 →
      c2.dataHash = calcDataHash d →
      (∀ c ∈ s.cells, c.dataHash = calcDataHash d →
        c.txHash = t1 ∨ c.txHash = t2) →
      ∀ r ∈ (remove_cells (remove_cells s t1) t2).cellsData,
        r.hash ≠ calcDataHash d)
  ∧ ((∃ c ∈ s.cells, c.lockHash = h ∨ c.typeHash = some h) →
      remove_script s h = s)
  ∧ ((∀ c ∈ s.cells, c.lockHash ≠ h ∧ c.typeHash ≠ some h) →
      (remove_script s h).scripts =
        s.scripts.filter (fun r => !(r.hash == h))) := by
  have hmiss : ∀ (s1 : Store),
      (s1.cellsData.any (fun r => r.hash == calcDataHash d)) = false →
      (insertCellDataOp (calcDataHash d) d s1).cellsData =
        s1.cellsData ++ [{ hash := calcDataHash d, data := d }] := by
    intro s1 h1
    unfold insertCellDataOp upsertRow
    rw [h1]
    simp
  have hhit : ∀ (s1 : Store),
      (s1.cellsData.any (fun r => r.hash == calcDataHash d)) = true →
      (insertCellDataOp (calcDataHash d) d s1).cellsData = s1.cellsData := by
    intro s1 h1
    unfold insertCellDataOp upsertRow
    rw [h1]
    simp
  refine ⟨?_, ?_, ?_, ?_, ?_⟩
  · -- dedup: the second insert hits the existing row
    intro hnone
    have h1 : (s.cellsData.any (fun r => r.hash == calcDataHash d)) = false := by
      rw [List.any_eq_false]
      intro r hr
      simpa using hnone r hr
    have hrow1 := hmiss s h1
    have h2 : ((insertCellDataOp (calcDataHash d) d s).cellsData.any
        (fun r => r.hash == calcDataHash d)) = true := by
      rw [hrow1]
      exact List.any_eq_true.mpr
        ⟨{ hash := calcDataHash d, data := d },
         List.mem_append_right _ (List.mem_singleton.mpr rfl), by simp⟩
    rw [hhit _ h2, hrow1, List.filter_append]
    have hfilt : s.cellsData.filter (fun r => r.hash == calcDataHash d) = [] := by
      rw [List.filter_eq_nil_iff]
      intro r hr
      simpa using hnone r hr
    rw [hfilt]
    simp
  · -- still referenced by the other transaction's cell: blob kept
    intro hc2 ht1 hcd r hr hrh
    unfold remove_cells
    apply removeCellsGc_keeps
    · exact hr
    · refine ⟨c2, ?_, by rw [hcd, hrh]⟩
      apply List.mem_filter.mpr
      exact ⟨hc2, by simp [ht1]⟩
  · -- both referencing transactions removed: blob deleted
    intro hc2 ht2 hne hcd hall r hr
    have hc2in1 : c2 ∈ (remove_cells s t1).cells := by
      rw [remove_cells_cells]
      apply List.mem_filter.mpr
      exact ⟨hc2, by simp [ht2, hne]⟩
    rw [show remove_cells (remove_cells s t1) t2 =
        removeCellsGc ((remove_cells s t1).cells.filter (fun c => c.txHash == t2))
          { (remove_cells s t1) with cells :=
              (remove_cells s t1).cells.filter (fun c => !(c.txHash == t2)) }
      from rfl] at hr
    refine removeCellsGc_deletes _ _ (calcDataHash d) ?_ ?_ r hr
    · intro c hcmem
      have hcmem' := List.mem_filter.mp hcmem
      have hc1 : c ∈ s.cells := by
        have := hcmem'.1
        rw [remove_cells_cells] at this
        exact List.mem_of_mem_filter this
      intro hcd'
      rcases hall c hc1 hcd' with h1 | h1
      · have := (List.mem_filter.mp (by
          have := hcmem'.1
          rwa [remove_cells_cells] at this)).2
        simp only [Bool.not_eq_true', beq_eq_false_iff_ne, ne_eq] at this
        exact this h1
      · have := hcmem'.2
        simp only [Bool.not_eq_true', beq_eq_false_iff_ne, ne_eq] at this
        exact this h1
    · refine ⟨c2, ?_, hcd⟩
      apply List.mem_filter.mpr
      exact ⟨hc2in1, by simp [ht2]⟩
  · -- referenced script is never deleted
    intro href
    unfold remove_script
    rw [if_pos]
    obtain ⟨c, hc, hor⟩ := href
    refine List.any_eq_true.mpr ⟨c, hc, ?_⟩
    rcases hor with h1 | h1 <;> simp [h1]
  · -- unreferenced script row is deleted
    intro hnone
    unfold remove_script
    rw [if_neg]
    intro hany
    obtain ⟨c, hc, hcb⟩ := List.any_eq_true.mp hany
    rcases Bool.or_eq_true_iff.mp hcb with h1 | h1
    · exact (hnone c hc).1 (beq_iff_eq.mp h1)
    · exact (hnone c hc).2 (beq_iff_eq.mp h1)

/-- Two cells of different transactions sharing one data blob, plus the blob
row and the scripts they reference. -/
def cellA : CellRow :=
  { txHash := 1, index := 0, capacity := 100, lockHash := 5, typeHash := none,
    dataHash := calcDataHash [9], consumedTxHash := none,
    consumedIndex := none, consumedSince := none }

def cellB : CellRow :=
  { txHash := 2, index := 0, capacity := 100, lockHash := 5, typeHash := none,
    dataHash := calcDataHash [9], consumedTxHash := none,
    consumedIndex := none, consumedSince := none }

def c5Store : Store :=
  { emptyStore with
    cells := [cellA, cellB],
    cellsData := [{ hash := calcDataHash [9], data := [9] }],
    scripts := [{ hash := 5, codeHash := 0, hashType := 0, args := [] }] }

theorem c5_dedup_refcount_witness :
    (((insertCellDataOp (calcDataHash [9]) [9]
        (insertCellDataOp (calcDataHash [9]) [9] emptyStore)).cellsData.filter
      (fun r => r.hash == calcDataHash [9])).length = 1)
    ∧ remove_script c5Store 5 = c5Store :=
  ⟨(c5_dedup_refcount emptyStore [9] 5 1 2 cellA).1 (by decide),
   (c5_dedup_refcount c5Store [9] 5 1 2 cellA).2.2.2.1
     ⟨cellA, by decide, Or.inl rfl⟩⟩

/-! ### Frame lemmas for the cells table under `remove_block` -/

theorem removeTxStep_cells (st : Store) (t : Hash) :
    (removeTxStep st t).cells =
      (st.cells.map (fun c => if c.consumedTxHash == some t then
          { c with consumedTxHash := none, consumedIndex := none,
                   consumedSince := none }
        else c)).filter (fun c => !(c.txHash == t)) := by
  unfold removeTxStep
  rw [remove_cells_cells]
  rfl

theorem remove_block_proposals_cells (s : Store) (x : Hash) :
    (remove_block_proposals s x).cells = s.cells := by
  unfold remove_block_proposals
  split <;> rfl

theorem remove_uncle_header_cells (s : Store) (x : Hash) :
    (remove_uncle_header s x).cells = s.cells := by
  unfold remove_uncle_header
  split <;> rfl

theorem removeUncleStep_cells (st : Store) (x : Hash) :
    (removeUncleStep st x).cells = st.cells := by
  unfold removeUncleStep
  rw [remove_block_proposals_cells, remove_uncle_header_cells]

theorem foldUncle_cells (l : List Hash) :
    ∀ st : Store, (l.foldl removeUncleStep st).cells = st.cells := by
  induction l with
  | nil => intro st; rfl
  | cons x l ih =>
    intro st
    show (l.foldl removeUncleStep (removeUncleStep st x)).cells = st.cells
    rw [ih, removeUncleStep_cells]

/-- After the per-transaction loop, the remaining statements of
`remove_block` do not touch the cells table. -/
theorem remove_block_uncles_snd_cells (s : Store) (x : Hash) :
    (remove_block_uncles s x).2.cells = s.cells := rfl

theorem remove_block_cells_after_fold (s : Store) (H : Nat) (bh : Hash)
    (hq : query_block_hash s H = some bh) :
    (remove_block s H).cells =
      (((remove_block_transactions s bh).1).foldl removeTxStep
        (remove_block_transactions s bh).2).cells := by
  unfold remove_block
  rw [hq]
  show (remove_block_header _ bh).cells = _
  unfold remove_block_header
  rw [foldUncle_cells, remove_block_uncles_snd_cells,
    remove_block_proposals_cells]

/-- A cell whose spender is not in the processed list and whose consumption
fields are already null passes through the per-transaction loop unchanged. -/
theorem foldTx_keeps (l : List Hash) :
    ∀ (st : Store) (c : CellRow), c ∈ st.cells → c.consumedTxHash = none →
      c.txHash ∉ l → c ∈ (l.foldl removeTxStep st).cells := by
  induction l with
  | nil => intro st c hc _ _; exact hc
  | cons t l ih =>
    intro st c hc hn hnin
    simp only [List.mem_cons, not_or] at hnin
    obtain ⟨ht, hl⟩ := hnin
    show c ∈ (l.foldl removeTxStep (removeTxStep st t)).cells
    refine ih (removeTxStep st t) c ?_ hn hl
    rw [removeTxStep_cells]
    apply List.mem_filter.mpr
    refine ⟨List.mem_map.mpr ⟨c, hc, by simp [hn]⟩, by simp [ht]⟩

/-- A cell consumed by one of the processed transactions, created by none of
them, comes out of the loop with its consumption fields restored to null. -/
theorem foldTx_restores (l : List Hash) :
    ∀ (st : Store) (c : CellRow) (T : Hash), c ∈ st.cells →
      c.consumedTxHash = some T → T ∈ l → c.txHash ∉ l →
      ({ c with consumedTxHash := none, consumedIndex := none,
                consumedSince := none } : CellRow)
        ∈ (l.foldl removeTxStep st).cells := by
  induction l with
  | nil => intro st c T _ _ hT _; cases hT
  | cons t l ih =>
    intro st c T hc hcons hT hnin
    simp only [List.mem_cons, not_or] at hnin
    obtain ⟨ht, hl⟩ := hnin
    show _ ∈ (l.foldl removeTxStep (removeTxStep st t)).cells
    by_cases hTt : t = T
    · subst hTt
      refine foldTx_keeps l (removeTxStep st t) _ ?_ rfl hl
      rw [removeTxStep_cells]
      apply List.mem_filter.mpr
      refine ⟨List.mem_map.mpr ⟨c, hc, by simp [hcons]⟩, by simp [ht]⟩
    · have hT' : T ∈ l := by
        cases List.mem_cons.mp hT with
        | inl h => exact absurd h.symm hTt
        | inr h => exact h
      refine ih (removeTxStep st t) c T ?_ hcons hT' hl
      rw [removeTxStep_cells]
      apply List.mem_filter.mpr
      refine ⟨List.mem_map.mpr ⟨c, hc, ?_⟩, by simp [ht]⟩
      have hb : (c.consumedTxHash == some t) = false := by
        rw [hcons, beq_eq_false_iff_ne]
        intro hcontra
        exact hTt (Option.some.inj hcontra).symm
      rw [hb]
      simp

/-- C4: if a transaction `T` of the block at height `H` consumed a cell
created by another (earlier) block, `remove_block H` restores that cell: the
row stays present with all three consumption fields set back to null and
every other field unchanged; the cell row is not deleted by removing its
spender's block. -/
theorem c4_remove_block_restores_consumed_cell (s : Store) (H : Nat)
    (c : CellRow) (T : Hash) (hc : c ∈ s.cells)
    (hcons : c.consumedTxHash = some T) (hT : T ∈ capturedTxHashes s H)
    (hown : c.txHash ∉ capturedTxHashes s H) :
    ({ c with consumedTxHash := none, consumedIndex := none,
              consumedSince := none } : CellRow)
      ∈ (remove_block s H).cells := by
  cases hq : query_block_hash s H with
  | none =>
    unfold capturedTxHashes at hT
    rw [hq] at hT
    cases hT
  | some bh =>
    have hcap : capturedTxHashes s H = (remove_block_transactions s bh).1 := by
      unfold capturedTxHashes
      rw [hq]
    rw [hcap] at hT hown
    rw [remove_block_cells_after_fold s H bh hq]
    exact foldTx_restores _ _ c T hc hcons hT hown

/-- A cell created by transaction 42 (block at height 0, not removed here) and
consumed by transaction 55 of the block at height 1. -/
def c4Cell : CellRow :=
  { txHash := 42, index := 0, capacity := 500, lockHash := 5, typeHash := none,
    dataHash := 6, consumedTxHash := some 55, consumedIndex := some 0,
    consumedSince := some (natToLe8 7) }

def c4Store : Store :=
  { emptyStore with
    blockHeaders := [headerRowOf (mkHeader 101 1 100)],
    blockTransactions := [{ blockHash := 101, txHash := 55, index := 0 }],
    cells := [c4Cell] }

theorem c4_remove_block_restores_consumed_cell_witness :
    ({ c4Cell with consumedTxHash := none, consumedIndex := none,
                   consumedSince := none } : CellRow)
      ∈ (remove_block c4Store 1).cells :=
  c4_remove_block_restores_consumed_cell c4Store 1 c4Cell 55 (by decide) rfl
    (by decide) (by decide)

/-! ### Frame lemmas for the dep/witness/transaction tables -/

theorem remove_cell_data_txCellDeps (s : Store) (x : Hash) :
    (remove_cell_data s x).txCellDeps = s.txCellDeps := by
  unfold remove_cell_data
  split <;> rfl

theorem remove_cell_data_txHeaderDeps (s : Store) (x : Hash) :
    (remove_cell_data s x).txHeaderDeps = s.txHeaderDeps := by
  unfold remove_cell_data
  split <;> rfl

theorem remove_cell_data_txWitnesses (s : Store) (x : Hash) :
    (remove_cell_data s x).txWitnesses = s.txWitnesses := by
  unfold remove_cell_data
  split <;> rfl

theorem remove_cell_data_transactions (s : Store) (x : Hash) :
    (remove_cell_data s x).transactions = s.transactions := by
  unfold remove_cell_data
  split <;> rfl

theorem remove_script_txCellDeps (s : Store) (x : Hash) :
    (remove_script s x).txCellDeps = s.txCellDeps := by
  unfold remove_script
  split <;> rfl

theorem remove_script_txHeaderDeps (s : Store) (x : Hash) :
    (remove_script s x).txHeaderDeps = s.txHeaderDeps := by
  unfold remove_script
  split <;> rfl

theorem remove_script_txWitnesses (s : Store) (x : Hash) :
    (remove_script s x).txWitnesses = s.txWitnesses := by
  unfold remove_script
  split <;> rfl

theorem remove_script_transactions (s : Store) (x : Hash) :
    (remove_script s x).transactions = s.transactions := by
  unfold remove_script
  split <;> rfl

theorem gcCellStep_txCellDeps (st : Store) (c : CellRow) :
    (gcCellStep st c).txCellDeps = st.txCellDeps := by
  unfold gcCellStep
  cases htc : c.typeHash <;>
    simp only [htc, remove_script_txCellDeps, remove_cell_data_txCellDeps]

theorem gcCellStep_txHeaderDeps (st : Store) (c : CellRow) :
    (gcCellStep st c).txHeaderDeps = st.txHeaderDeps := by
  unfold gcCellStep
  cases htc : c.typeHash <;>
    simp only [htc, remove_script_txHeaderDeps, remove_cell_data_txHeaderDeps]

theorem gcCellStep_txWitnesses (st : Store) (c : CellRow) :
    (gcCellStep st c).txWitnesses = st.txWitnesses := by
  unfold gcCellStep
  cases htc : c.typeHash <;>
    simp only [htc, remove_script_txWitnesses, remove_cell_data_txWitnesses]

theorem gcCellStep_transactions (st : Store) (c : CellRow) :
    (gcCellStep st c).transactions = st.transactions := by
  unfold gcCellStep
  cases htc : c.typeHash <;>
    simp only [htc, remove_script_transactions, remove_cell_data_transactions]

theorem removeCellsGc_txCellDeps (l : List CellRow) :
    ∀ st : Store, (removeCellsGc l st).txCellDeps = st.txCellDeps := by
  induction l with
  | nil => intro st; rfl
  | cons c l ih =>
    intro st
    show (removeCellsGc l (gcCellStep st c)).txCellDeps = st.txCellDeps
    rw [ih, gcCellStep_txCellDeps]

theorem removeCellsGc_txHeaderDeps (l : List CellRow) :
    ∀ st : Store, (removeCellsGc l st).txHeaderDeps = st.txHeaderDeps := by
  induction l with
  | nil => intro st; rfl
  | cons c l ih =>
    intro st
    show (removeCellsGc l (gcCellStep st c)).txHeaderDeps = st.txHeaderDeps
    rw [ih, gcCellStep_txHeaderDeps]

theorem removeCellsGc_txWitnesses (l : List CellRow) :
    ∀ st : Store, (removeCellsGc l st).txWitnesses = st.txWitnesses := by
  induction l with
  | nil => intro st; rfl
  | cons c l ih =>
    intro st
    show (removeCellsGc l (gcCellStep st c)).txWitnesses = st.txWitnesses
    rw [ih, gcCellStep_txWitnesses]

theorem removeCellsGc_transactions (l : List CellRow) :
    ∀ st : Store, (removeCellsGc l st).transactions = st.transactions := by
  induction l with
  | nil => intro st; rfl
  | cons c l ih =>
    intro st
    show (removeCellsGc l (gcCellStep st c)).transactions = st.transactions
    rw [ih, gcCellStep_transactions]

theorem removeTxStep_txCellDeps (st : Store) (t : Hash) :
    (removeTxStep st t).txCellDeps =
      st.txCellDeps.filter (fun r => !(r.refTxHash == t)) := by
  show (remove_cells (restore_cells (remove_transaction st t) t) t).txCellDeps = _
  unfold remove_cells
  rw [removeCellsGc_txCellDeps]
  rfl

theorem removeTxStep_txHeaderDeps (st : Store) (t : Hash) :
    (removeTxStep st t).txHeaderDeps =
      st.txHeaderDeps.filter (fun r => !(r.refTxHash == t)) := by
  show (remove_cells (restore_cells (remove_transaction st t) t) t).txHeaderDeps = _
  unfold remove_cells
  rw [removeCellsGc_txHeaderDeps]
  rfl

theorem removeTxStep_txWitnesses (st : Store) (t : Hash) :
    (removeTxStep st t).txWitnesses =
      st.txWitnesses.filter (fun r => !(r.refTxHash == t)) := by
  show (remove_cells (restore_cells (remove_transaction st t) t) t).txWitnesses = _
  unfold remove_cells
  rw [removeCellsGc_txWitnesses]
  rfl

theorem removeTxStep_transactions (st : Store) (t : Hash) :
    (removeTxStep st t).transactions =
      st.transactions.filter (fun r => !(r.hash == t)) := by
  show (remove_cells (restore_cells (remove_transaction st t) t) t).transactions = _
  unfold remove_cells
  rw [removeCellsGc_transactions]
  rfl

/-- No dep, witness or transaction row keyed by `T` survives in the store. -/
def NoTxRows (st : Store) (T : Hash) : Prop :=
  (∀ r ∈ st.txCellDeps, r.refTxHash ≠ T)
  ∧ (∀ r ∈ st.txHeaderDeps, r.refTxHash ≠ T)
  ∧ (∀ r ∈ st.txWitnesses, r.refTxHash ≠ T)
  ∧ (∀ r ∈ st.transactions, r.hash ≠ T)

theorem removeTxStep_noTx_preserve (st : Store) (t T : Hash)
    (h : NoTxRows st T) : NoTxRows (removeTxStep st t) T := by
  obtain ⟨h1, h2, h3, h4⟩ := h
  refine ⟨?_, ?_, ?_, ?_⟩
  · rw [removeTxStep_txCellDeps]
    intro r hr
    exact h1 r (List.mem_of_mem_filter hr)
  · rw [removeTxStep_txHeaderDeps]
    intro r hr
    exact h2 r (List.mem_of_mem_filter hr)
  · rw [removeTxStep_txWitnesses]
    intro r hr
    exact h3 r (List.mem_of_mem_filter hr)
  · rw [removeTxStep_transactions]
    intro r hr
    exact h4 r (List.mem_of_mem_filter hr)

theorem removeTxStep_noTx_self (st : Store) (T : Hash) :
    NoTxRows (removeTxStep st T) T := by
  refine ⟨?_, ?_, ?_, ?_⟩
  · rw [removeTxStep_txCellDeps]
    intro r hr
    have := (List.mem_filter.mp hr).2
    simpa using this
  · rw [removeTxStep_txHeaderDeps]
    intro r hr
    have := (List.mem_filter.mp hr).2
    simpa using this
  · rw [removeTxStep_txWitnesses]
    intro r hr
    have := (List.mem_filter.mp hr).2
    simpa using this
  · rw [removeTxStep_transactions]
    intro r hr
    have := (List.mem_filter.mp hr).2
    simpa using this

theorem foldTx_noTx_preserve (l : List Hash) :
    ∀ (st : Store) (T : Hash), NoTxRows st T →
      NoTxRows (l.foldl removeTxStep st) T := by
  induction l with
  | nil => intro st T h; exact h
  | cons t l ih =>
    intro st T h
    exact ih (removeTxStep st t) T (removeTxStep_noTx_preserve st t T h)

theorem foldTx_noTx (l : List Hash) :
    ∀ (st : Store) (T : Hash), T ∈ l →
      NoTxRows (l.foldl removeTxStep st) T := by
  induction l with
  | nil => intro st T hT; cases hT
  | cons t l ih =>
    intro st T hT
    cases List.mem_cons.mp hT with
    | inl h =>
      subst h
      exact foldTx_noTx_preserve l (removeTxStep st T) T
        (removeTxStep_noTx_self st T)
    | inr h => exact ih (removeTxStep st t) T h

theorem remove_block_proposals_txTables (s : Store) (x : Hash) :
    (remove_block_proposals s x).txCellDeps = s.txCellDeps
    ∧ (remove_block_proposals s x).txHeaderDeps = s.txHeaderDeps
    ∧ (remove_block_proposals s x).txWitnesses = s.txWitnesses
    ∧ (remove_block_proposals s x).transactions = s.transactions := by
  unfold remove_block_proposals
  split <;> exact ⟨rfl, rfl, rfl, rfl⟩

theorem remove_uncle_header_txTables (s : Store) (x : Hash) :
    (remove_uncle_header s x).txCellDeps = s.txCellDeps
    ∧ (remove_uncle_header s x).txHeaderDeps = s.txHeaderDeps
    ∧ (remove_uncle_header s x).txWitnesses = s.txWitnesses
    ∧ (remove_uncle_header s x).transactions = s.transactions := by
  unfold remove_uncle_header
  split <;> exact ⟨rfl, rfl, rfl, rfl⟩

theorem removeUncleStep_noTx (st : Store) (x : Hash) (T : Hash)
    (h : NoTxRows st T) : NoTxRows (removeUncleStep st x) T := by
  obtain ⟨h1, h2, h3, h4⟩ := h
  obtain ⟨p1, p2, p3, p4⟩ :=
    remove_block_proposals_txTables (remove_uncle_header st x) x
  obtain ⟨u1, u2, u3, u4⟩ := remove_uncle_header_txTables st x
  unfold removeUncleStep
  exact ⟨by rw [p1, u1]; exact h1, by rw [p2, u2]; exact h2,
         by rw [p3, u3]; exact h3, by rw [p4, u4]; exact h4⟩

theorem foldUncle_noTx (l : List Hash) :
    ∀ (st : Store) (T : Hash), NoTxRows st T →
      NoTxRows (l.foldl removeUncleStep st) T := by
  induction l with
  | nil => intro st T h; exact h
  | cons x l ih =>
    intro st T h
    exact ih (removeUncleStep st x) T (removeUncleStep_noTx st x T h)

/-- C10: every transaction hash captured while removing a block loses all of
its cell-dependency, header-dependency and witness rows across every
occurrence index — not only the occurrence belonging to the removed block —
and its shared `transactions` row, even if the same transaction also occurs
in another still-stored block. -/
theorem c10_remove_block_removes_tx_rows_globally (s : Store) (H : Nat)
    (T : Hash) (hT : T ∈ capturedTxHashes s H) :
    (∀ r ∈ (remove_block s H).txCellDeps, r.refTxHash ≠ T)
  ∧ (∀ r ∈ (remove_block s H).txHeaderDeps, r.refTxHash ≠ T)
  ∧ (∀ r ∈ (remove_block s H).txWitnesses, r.refTxHash ≠ T)
  ∧ (∀ r ∈ (remove_block s H).transactions, r.hash ≠ T) := by
  cases hq : query_block_hash s H with
  | none =>
    unfold capturedTxHashes at hT
    rw [hq] at hT
    cases hT
  | some bh =>
    have hcap : capturedTxHashes s H = (remove_block_transactions s bh).1 := by
      unfold capturedTxHashes
      rw [hq]
    rw [hcap] at hT
    have hfold : NoTxRows
        (((remove_block_transactions s bh).1).foldl removeTxStep
          (remove_block_transactions s bh).2) T :=
      foldTx_noTx _ _ T hT
    have hprops : NoTxRows (remove_block_proposals
        (((remove_block_transactions s bh).1).foldl removeTxStep
          (remove_block_transactions s bh).2) bh) T := by
      obtain ⟨p1, p2, p3, p4⟩ := remove_block_proposals_txTables
        (((remove_block_transactions s bh).1).foldl removeTxStep
          (remove_block_transactions s bh).2) bh
      obtain ⟨f1, f2, f3, f4⟩ := hfold
      exact ⟨by rw [p1]; exact f1, by rw [p2]; exact f2,
             by rw [p3]; exact f3, by rw [p4]; exact f4⟩
    unfold remove_block
    rw [hq]
    exact foldUncle_noTx _ _ T hprops

/-- Two stored blocks (heights 1 and 2) sharing transaction hash 7, with one
witness row per occurrence (occurrence indexes 0 and 3). -/
def c10Store : Store :=
  { emptyStore with
    blockHeaders := [headerRowOf (mkHeader 101 1 100),
                     headerRowOf (mkHeader 102 2 101)],
    blockTransactions := [{ blockHash := 101, txHash := 7, index := 0 },
                          { blockHash := 102, txHash := 7, index := 3 }],
    transactions := [{ hash := 7, version := 0 }],
    txWitnesses := [{ refTxHash := 7, refIndex := 0, refDepIndex := 0,
                      witness := [1] },
                    { refTxHash := 7, refIndex := 3, refDepIndex := 0,
                      witness := [1] }] }

theorem c10_remove_block_removes_tx_rows_globally_witness :
    (7 ∈ capturedTxHashes c10Store 2)
    ∧ (∀ r ∈ (remove_block c10Store 2).txWitnesses, r.refTxHash ≠ 7)
    ∧ (∀ r ∈ (remove_block c10Store 2).transactions, r.hash ≠ 7) :=
  ⟨by decide,
   (c10_remove_block_removes_tx_rows_globally c10Store 2 7 (by decide)).2.2.1,
   (c10_remove_block_removes_tx_rows_globally c10Store 2 7 (by decide)).2.2.2⟩

/-! ### Frame lemmas for the block_headers table -/

theorem insertBlockUnclesOps_blockHeaders (bh : Hash) (us : List Hash) :
    ∀ f ∈ insertBlockUnclesOps bh us, ∀ st : Store,
      (f st).blockHeaders = st.blockHeaders := by
  intro f hf st
  unfold insertBlockUnclesOps at hf
  obtain ⟨p, _, rfl⟩ := List.mem_map.mp hf
  rfl

theorem insertBlockProposalsOps_blockHeaders (bh : Hash) (ps : List Bytes) :
    ∀ f ∈ insertBlockProposalsOps bh ps, ∀ st : Store,
      (f st).blockHeaders = st.blockHeaders := by
  intro f hf st
  unfold insertBlockProposalsOps at hf
  obtain ⟨p, _, rfl⟩ := List.mem_map.mp hf
  rfl

theorem insertBlockTransactionsOps_blockHeaders (bh : Hash) (ts : List Hash) :
    ∀ f ∈ insertBlockTransactionsOps bh ts, ∀ st : Store,
      (f st).blockHeaders = st.blockHeaders := by
  intro f hf st
  unfold insertBlockTransactionsOps at hf
  obtain ⟨p, _, rfl⟩ := List.mem_map.mp hf
  rfl

theorem insertTransactionOps_blockHeaders (tx : Transaction) (ri : Nat) :
    ∀ f ∈ insertTransactionOps tx ri, ∀ st : Store,
      (f st).blockHeaders = st.blockHeaders := by
  intro f hf st
  unfold insertTransactionOps at hf
  rcases List.mem_append.mp hf with h | h
  · rcases List.mem_append.mp h with h | h
    · rcases List.mem_append.mp h with h | h
      · obtain ⟨p, _, rfl⟩ := List.mem_map.mp h
        rfl
      · obtain ⟨p, _, rfl⟩ := List.mem_map.mp h
        rfl
    · obtain ⟨p, _, rfl⟩ := List.mem_map.mp h
      rfl
  · cases List.mem_singleton.mp h
    rfl

theorem consumeCellsOps_blockHeaders (t : Hash) (ins : List CellInput) :
    ∀ f ∈ consumeCellsOps t ins, ∀ st : Store,
      (f st).blockHeaders = st.blockHeaders := by
  intro f hf st
  unfold consumeCellsOps at hf
  obtain ⟨p, _, rfl⟩ := List.mem_map.mp hf
  rfl

theorem insertCellOps_blockHeaders (t : Hash) (i : Nat) (o : CellOutput)
    (d : Bytes) :
    ∀ f ∈ insertCellOps t i o d, ∀ st : Store,
      (f st).blockHeaders = st.blockHeaders := by
  intro f hf st
  unfold insertCellOps at hf
  rcases List.mem_append.mp hf with h | h
  · rcases List.mem_append.mp h with h | h
    · cases h with
      | head => rfl
      | tail _ h2 =>
        cases h2 with
        | head => rfl
        | tail _ h3 => cases h3
    · cases hts : o.typeScript with
      | none =>
        rw [hts] at h
        cases h
      | some ts =>
        rw [hts] at h
        cases h with
        | head => rfl
        | tail _ h3 => cases h3
  · cases List.mem_singleton.mp h
    rfl

theorem insertCellsOps_blockHeaders (t : Hash) (os : List CellOutput)
    (ds : List Bytes) :
    ∀ f ∈ insertCellsOps t os ds, ∀ st : Store,
      (f st).blockHeaders = st.blockHeaders := by
  intro f hf st
  unfold insertCellsOps at hf
  obtain ⟨p, _, hf2⟩ := List.mem_flatMap.mp hf
  exact insertCellOps_blockHeaders t p.1 p.2.1 p.2.2 f hf2 st

theorem insertBlockRestOps_blockHeaders (b : Block) :
    ∀ f ∈ insertBlockRestOps b, ∀ st : Store,
      (f st).blockHeaders = st.blockHeaders := by
  intro f hf st
  unfold insertBlockRestOps at hf
  rcases List.mem_append.mp hf with h | h
  · rcases List.mem_append.mp h with h | h
    · rcases List.mem_append.mp h with h | h
      · rcases List.mem_append.mp h with h | h
        · exact insertBlockUnclesOps_blockHeaders _ _ f h st
        · obtain ⟨u, _, h2⟩ := List.mem_flatMap.mp h
          cases h2 with
          | head => rfl
          | tail _ h3 =>
            exact insertBlockProposalsOps_blockHeaders _ _ f h3 st
      · exact insertBlockProposalsOps_blockHeaders _ _ f h st
    · exact insertBlockTransactionsOps_blockHeaders _ _ f h st
  · obtain ⟨p, _, h2⟩ := List.mem_flatMap.mp h
    rcases List.mem_append.mp h2 with h3 | h3
    · rcases List.mem_append.mp h3 with h4 | h4
      · exact insertTransactionOps_blockHeaders _ _ f h4 st
      · by_cases hp : p.1 ≠ 0
        · rw [if_pos hp] at h4
          exact consumeCellsOps_blockHeaders _ _ f h4 st
        · rw [if_neg hp] at h4
          cases h4
    · exact insertCellsOps_blockHeaders _ _ _ f h3 st

theorem applyOps_blockHeaders (ops : List (Store → Store))
    (h : ∀ f ∈ ops, ∀ st : Store, (f st).blockHeaders = st.blockHeaders) :
    ∀ s : Store, (applyOps s ops).blockHeaders = s.blockHeaders := by
  induction ops with
  | nil => intro s; rfl
  | cons f fs ih =>
    intro s
    show (applyOps (f s) fs).blockHeaders = s.blockHeaders
    rw [ih (fun g hg => h g (List.mem_cons_of_mem f hg)) (f s),
      h f (List.mem_cons_self f fs) s]

/-- The `block_headers` content of a successful `insert_block`: the upsert of
the block's own header row, everything else leaving the table alone. -/
theorem insert_block_ok_blockHeaders (s : Store) (b : Block) (s1 : Store)
    (h : insert_block s b = .ok s1) :
    s1.blockHeaders = upsertRow
      (fun r => r.hash == b.header.hash || r.number == b.header.number)
      (headerRowOf b.header) s.blockHeaders := by
  unfold insert_block at h
  split at h
  · cases h
  · cases h
    show (applyOps (insertBlockHeaderOp b.header s)
      (insertBlockRestOps b)).blockHeaders = _
    rw [applyOps_blockHeaders _ (insertBlockRestOps_blockHeaders b)]
    rfl

theorem remove_cell_data_blockHeaders (s : Store) (x : Hash) :
    (remove_cell_data s x).blockHeaders = s.blockHeaders := by
  unfold remove_cell_data
  split <;> rfl

theorem remove_script_blockHeaders (s : Store) (x : Hash) :
    (remove_script s x).blockHeaders = s.blockHeaders := by
  unfold remove_script
  split <;> rfl

theorem gcCellStep_blockHeaders (st : Store) (c : CellRow) :
    (gcCellStep st c).blockHeaders = st.blockHeaders := by
  unfold gcCellStep
  cases htc : c.typeHash <;>
    simp only [htc, remove_script_blockHeaders, remove_cell_data_blockHeaders]

theorem removeCellsGc_blockHeaders (l : List CellRow) :
    ∀ st : Store, (removeCellsGc l st).blockHeaders = st.blockHeaders := by
  induction l with
  | nil => intro st; rfl
  | cons c l ih =>
    intro st
    show (removeCellsGc l (gcCellStep st c)).blockHeaders = st.blockHeaders
    rw [ih, gcCellStep_blockHeaders]

theorem removeTxStep_blockHeaders (st : Store) (t : Hash) :
    (removeTxStep st t).blockHeaders = st.blockHeaders := by
  show (remove_cells (restore_cells (remove_transaction st t) t) t).blockHeaders = _
  unfold remove_cells
  rw [removeCellsGc_blockHeaders]
  rfl

theorem foldTx_blockHeaders (l : List Hash) :
    ∀ st : Store, (l.foldl removeTxStep st).blockHeaders = st.blockHeaders := by
  induction l with
  | nil => intro st; rfl
  | cons t l ih =>
    intro st
    show (l.foldl removeTxStep (removeTxStep st t)).blockHeaders = st.blockHeaders
    rw [ih, removeTxStep_blockHeaders]

theorem remove_block_proposals_blockHeaders (s : Store) (x : Hash) :
    (remove_block_proposals s x).blockHeaders = s.blockHeaders := by
  unfold remove_block_proposals
  split <;> rfl

theorem remove_uncle_header_blockHeaders (s : Store) (x : Hash) :
    (remove_uncle_header s x).blockHeaders = s.blockHeaders := by
  unfold remove_uncle_header
  split <;> rfl

theorem removeUncleStep_blockHeaders (st : Store) (x : Hash) :
    (removeUncleStep st x).blockHeaders = st.blockHeaders := by
  unfold removeUncleStep
  rw [remove_block_proposals_blockHeaders, remove_uncle_header_blockHeaders]

theorem foldUncle_blockHeaders (l : List Hash) :
    ∀ st : Store, (l.foldl removeUncleStep st).blockHeaders = st.blockHeaders := by
  induction l with
  | nil => intro st; rfl
  | cons x l ih =>
    intro st
    show (l.foldl removeUncleStep (removeUncleStep st x)).blockHeaders = st.blockHeaders
    rw [ih, removeUncleStep_blockHeaders]

/-- The `block_headers` content of `remove_block`: only the header of the
block found at the height is deleted. -/
theorem remove_block_blockHeaders (s : Store) (H : Nat) (bh : Hash)
    (hq : query_block_hash s H = some bh) :
    (remove_block s H).blockHeaders =
      s.blockHeaders.filter (fun r => !(r.hash == bh)) := by
  unfold remove_block
  rw [hq]
  show (remove_block_header _ bh).blockHeaders = _
  unfold remove_block_header
  rw [foldUncle_blockHeaders]
  show (remove_block_proposals _ bh).blockHeaders.filter _ = _
  rw [remove_block_proposals_blockHeaders, foldTx_blockHeaders]
  rfl

/-! ### The "insert blocks 0..N in order" scenario -/

/-- The shape of a chain suffix starting at height `n`: consecutive heights,
each block linked to its predecessor's hash; `ph = none` leaves the first
parent hash unconstrained (the genesis case). -/
inductive ChainFrom : Nat → Option Hash → List Block → Prop where
  | nil : ∀ (n : Nat) (ph : Option Hash), ChainFrom n ph []
  | cons : ∀ (n : Nat) (ph : Option Hash) (b : Block) (bs : List Block),
      b.header.number = n →
      (∀ hh, ph = some hh → b.header.parentHash = hh) →
      ChainFrom (n + 1) (some b.header.hash) bs →
      ChainFrom n ph (b :: bs)

theorem chainFrom_numbers (bs : List Block) :
    ∀ (n : Nat) (ph : Option Hash), ChainFrom n ph bs →
      bs.map (fun b => b.header.number) = List.range' n bs.length := by
  induction bs with
  | nil => intro n ph _; rfl
  | cons b bs ih =>
    intro n ph hch
    cases hch with
    | cons _ _ _ _ hbn _ hch' =>
      show b.header.number :: bs.map _ = List.range' n (bs.length + 1)
      rw [ih (n + 1) _ hch', hbn]
      rfl

/-- Folding `insert_block` over a well-formed chain with fresh hashes
succeeds, and appends exactly one header row per block. -/
theorem insertChain_spec (bs : List Block) :
    ∀ (s : Store) (n : Nat) (ph : Option Hash),
      ChainFrom n ph bs →
      s.blockHeaders.map (fun r => r.number) = List.range n →
      (n ≠ 0 → ∃ hh, ph = some hh
        ∧ ∃ r ∈ s.blockHeaders, r.number = n - 1 ∧ r.hash = hh) →
      (∀ b ∈ bs, ∀ r ∈ s.blockHeaders, b.header.hash ≠ r.hash) →
      (bs.map (fun b => b.header.hash)).Nodup →
      ∃ sN, insertChain s bs = some sN
        ∧ sN.blockHeaders =
            s.blockHeaders ++ bs.map (fun b => headerRowOf b.header) := by
  induction bs with
  | nil =>
    intro s n ph _ _ _ _ _
    exact ⟨s, rfl, by simp⟩
  | cons b bs ih =>
    intro s n ph hch hnum hpar hfresh hnodup
    cases hch with
    | cons _ _ _ _ hbn hbp hch' =>
      have hnotfail :
          ¬ (0 < b.header.number ∧ verify_block s b.header = false) := by
        rintro ⟨hpos, hvf⟩
        have hn0 : n ≠ 0 := by omega
        obtain ⟨hh, hph, r, hr, hrn, hrh⟩ := hpar hn0
        have hv : verify_block s b.header = true := by
          rw [verify_block_iff s b.header hpos]
          exact ⟨r, hr, by omega, by rw [hrh, hbp hh hph]⟩
        rw [hv] at hvf
        cases hvf
      have hok : insert_block s b = .ok (applyOps s (insertBlockOps b)) := by
        unfold insert_block
        rw [if_neg hnotfail]
      have hnohit : (s.blockHeaders.any (fun r =>
          r.hash == b.header.hash || r.number == b.header.number)) = false := by
        rw [← Bool.not_eq_true, List.any_eq_true]
        rintro ⟨r, hr, hhit⟩
        rcases Bool.or_eq_true_iff.mp hhit with h | h
        · exact hfresh b (List.mem_cons_self b bs) r hr (beq_iff_eq.mp h).symm
        · have hmem : r.number ∈ s.blockHeaders.map (fun r => r.number) :=
            List.mem_map_of_mem _ hr
          rw [hnum, List.mem_range] at hmem
          have := beq_iff_eq.mp h
          omega
      have hbhead : (applyOps s (insertBlockOps b)).blockHeaders =
          s.blockHeaders ++ [headerRowOf b.header] := by
        rw [insert_block_ok_blockHeaders s b _ hok]
        unfold upsertRow
        rw [hnohit]
        simp
      obtain ⟨hheadnot, hnodup'⟩ := List.nodup_cons.mp hnodup
      have hnum1 : (applyOps s (insertBlockOps b)).blockHeaders.map
          (fun r => r.number) = List.range (n + 1) := by
        rw [hbhead, List.map_append, hnum]
        show List.range n ++ [b.header.number] = _
        rw [hbn, ← List.range_succ]
      have hpar1 : n + 1 ≠ 0 → ∃ hh, (some b.header.hash : Option Hash) = some hh
          ∧ ∃ r ∈ (applyOps s (insertBlockOps b)).blockHeaders,
              r.number = n + 1 - 1 ∧ r.hash = hh := by
        intro _
        refine ⟨b.header.hash, rfl, headerRowOf b.header, ?_, ?_, rfl⟩
        · rw [hbhead]
          exact List.mem_append_right _ (List.mem_singleton.mpr rfl)
        · show b.header.number = n + 1 - 1
          omega
      have hfresh1 : ∀ b' ∈ bs, ∀ r ∈ (applyOps s (insertBlockOps b)).blockHeaders,
          b'.header.hash ≠ r.hash := by
        intro b' hb' r hr
        rw [hbhead] at hr
        rcases List.mem_append.mp hr with hr | hr
        · exact hfresh b' (List.mem_cons_of_mem b hb') r hr
        · cases List.mem_singleton.mp hr
          show b'.header.hash ≠ b.header.hash
          intro hcontra
          apply hheadnot
          show b.header.hash ∈ List.map (fun b => b.header.hash) bs
          rw [← hcontra]
          exact List.mem_map_of_mem _ hb'
      obtain ⟨sN, hins, hrows⟩ :=
        ih (applyOps s (insertBlockOps b)) (n + 1) (some b.header.hash) hch'
          hnum1 hpar1 hfresh1 hnodup'
      refine ⟨sN, ?_, ?_⟩
      · show insertChain s (b :: bs) = some sN
        unfold insertChain
        rw [hok]
        exact hins
      · rw [hrows, hbhead]
        simp

/-- `initialize` reports `MAX(number)` over `block_headers`, whether or not
the schema had to be created first. -/
theorem storageInit_fst (s : Store) :
    (storageInit s).1 = (s.blockHeaders.map (fun r => r.number)).max? := by
  unfold storageInit check_current_block is_first_run create_tables
  split <;> rfl

/-- C9: `initialize` returns the highest stored block height, or nothing when
the header table is absent (creating the idempotent schema first) or empty;
consequently, inserting a well-formed chain of blocks 0..N in order into an
empty store reports exactly N, and removing block N afterwards reports
N − 1. -/
theorem c9_tip_height (s : Store) (n : Nat) (bs : List Block) :
    (s.tablesExist = false → s.blockHeaders = [] →
      (storageInit s).1 = none ∧ (storageInit s).2 = create_tables s)
  ∧ create_tables (create_tables s) = create_tables s
  ∧ ((storageInit s).1 = some n ↔
      (n ∈ s.blockHeaders.map (fun r => r.number)
       ∧ ∀ m ∈ s.blockHeaders.map (fun r => r.number), m ≤ n))
  ∧ ((storageInit s).1 = none ↔ s.blockHeaders = [])
  ∧ (s.blockHeaders = [] → ChainFrom 0 none bs →
      (bs.map (fun b => b.header.hash)).Nodup → bs ≠ [] →
      ∃ sN, insertChain s bs = some sN
        ∧ (storageInit sN).1 = some (bs.length - 1)
        ∧ (2 ≤ bs.length →
            (storageInit (remove_block sN (bs.length - 1))).1 =
              some (bs.length - 2))) := by
  refine ⟨?_, rfl, ?_, ?_, ?_⟩
  · intro hfl hempty
    constructor
    · rw [storageInit_fst, hempty]
      rfl
    · unfold storageInit is_first_run
      rw [hfl]
      rfl
  · rw [storageInit_fst]
    exact List.max?_eq_some_iff'
  · rw [storageInit_fst, List.max?_eq_none_iff, List.map_eq_nil_iff]
  · intro hempty hch hnodup hne
    obtain ⟨sN, hins, hrows⟩ :=
      insertChain_spec bs s 0 none hch (by rw [hempty]; rfl)
        (fun h0 => absurd rfl h0)
        (by
          rw [hempty]
          rintro b _ r hr
          cases hr)
        hnodup
    rw [hempty, List.nil_append] at hrows
    have hlen : 0 < bs.length := List.length_pos.mpr hne
    have hnums : sN.blockHeaders.map (fun r => r.number) =
        List.range bs.length := by
      rw [hrows, List.map_map]
      have hcomp : ((fun r : HeaderRow => r.number) ∘
          (fun b : Block => headerRowOf b.header)) =
          fun b : Block => b.header.number := rfl
      rw [hcomp, chainFrom_numbers bs 0 none hch, ← List.range_eq_range']
    have hmax : (storageInit sN).1 = some (bs.length - 1) := by
      rw [storageInit_fst, hnums]
      apply List.max?_eq_some_iff'.mpr
      constructor
      · rw [List.mem_range]
        omega
      · intro m hm
        rw [List.mem_range] at hm
        omega
    refine ⟨sN, hins, hmax, ?_⟩
    intro h2
    obtain ⟨ds, blast, hbs⟩ : ∃ ds blast, bs = ds ++ [blast] :=
      ⟨bs.dropLast, bs.getLast hne, (List.dropLast_append_getLast hne).symm⟩
    have hblen : bs.length = ds.length + 1 := by
      rw [hbs]
      simp
    have hrows2 : sN.blockHeaders =
        ds.map (fun b => headerRowOf b.header) ++ [headerRowOf blast.header] := by
      rw [hrows, hbs, List.map_append]
      rfl
    have hsplit : (ds.map (fun b => b.header.number)) ++
        [blast.header.number] = List.range ds.length ++ [ds.length] := by
      have hall := chainFrom_numbers bs 0 none hch
      rw [hbs] at hall
      simp only [List.map_append, List.map_cons, List.map_nil,
        List.length_append, List.length_cons, List.length_nil] at hall
      rw [hall]
      show List.range' 0 (ds.length + 1) = _
      rw [List.range'_concat, ← List.range_eq_range']
      simp
    have hdsnum : ds.map (fun b => b.header.number) = List.range ds.length :=
      (List.append_inj hsplit (by simp)).1
    have hbnum : blast.header.number = ds.length := by
      have := (List.append_inj hsplit (by simp)).2
      simpa using this
    have hquery : query_block_hash sN (bs.length - 1) =
        some blast.header.hash := by
      unfold query_block_hash
      rw [hrows2, List.find?_append]
      have hfind1 : (ds.map (fun b => headerRowOf b.header)).find?
          (fun r => r.number == bs.length - 1) = none := by
        rw [List.find?_eq_none]
        intro r hr
        obtain ⟨b', hb', rfl⟩ := List.mem_map.mp hr
        have hmem : b'.header.number ∈ ds.map (fun b => b.header.number) :=
          List.mem_map_of_mem _ hb'
        rw [hdsnum, List.mem_range] at hmem
        show ¬((headerRowOf b'.header).number == bs.length - 1) = true
        simp only [beq_iff_eq]
        show ¬ b'.header.number = bs.length - 1
        omega
      have hfind2 : List.find? (fun r => r.number == bs.length - 1)
          [headerRowOf blast.header] = some (headerRowOf blast.header) := by
        have hpred : ((headerRowOf blast.header).number == bs.length - 1)
            = true := by
          simp only [beq_iff_eq]
          show blast.header.number = bs.length - 1
          omega
        simp [List.find?, hpred]
      rw [hfind1, hfind2]
      rfl
    have hnodup2 := hnodup
    rw [hbs, List.map_append] at hnodup2
    obtain ⟨-, -, hdisj⟩ := List.nodup_append.mp hnodup2
    have hfilter : (remove_block sN (bs.length - 1)).blockHeaders =
        ds.map (fun b => headerRowOf b.header) := by
      rw [remove_block_blockHeaders sN _ blast.header.hash hquery, hrows2,
        List.filter_append]
      have hkeep : (ds.map (fun b => headerRowOf b.header)).filter
          (fun r => !(r.hash == blast.header.hash)) =
          ds.map (fun b => headerRowOf b.header) := by
        rw [List.filter_eq_self]
        intro r hr
        obtain ⟨b', hb', rfl⟩ := List.mem_map.mp hr
        simp only [Bool.not_eq_true', beq_eq_false_iff_ne, ne_eq]
        show ¬ b'.header.hash = blast.header.hash
        intro hcontra
        have hmem : b'.header.hash ∈ ds.map (fun b => b.header.hash) :=
          List.mem_map_of_mem _ hb'
        have := hdisj hmem
        rw [hcontra] at this
        exact this (List.mem_singleton.mpr rfl)
      have hdrop : ([headerRowOf blast.header]).filter
          (fun r => !(r.hash == blast.header.hash)) = [] := by
        simp [headerRowOf]
      rw [hkeep, hdrop, List.append_nil]
    have hdsrows : ((remove_block sN (bs.length - 1)).blockHeaders.map
        (fun r => r.number)) = List.range ds.length := by
      rw [hfilter, List.map_map]
      have hcomp : ((fun r : HeaderRow => r.number) ∘
          (fun b : Block => headerRowOf b.header)) =
          fun b : Block => b.header.number := rfl
      rw [hcomp, hdsnum]
    rw [storageInit_fst, hdsrows]
    have hD : 1 ≤ ds.length := by omega
    have hgoal : bs.length - 2 = ds.length - 1 := by omega
    rw [hgoal]
    apply List.max?_eq_some_iff'.mpr
    constructor
    · rw [List.mem_range]
      omega
    · intro m hm
      rw [List.mem_range] at hm
      omega

/-- Block 1 of the witness chain, child of the genesis fixture. -/
def blk1 : Block := mkBlock (mkHeader 101 1 100)

/-- The two-block witness chain genesis → block 1. -/
theorem chainGB : ChainFrom 0 none [genesisB, blk1] := by
  refine ChainFrom.cons 0 none genesisB [blk1] rfl (fun hh h => by cases h) ?_
  refine ChainFrom.cons 1 (some 100) blk1 [] rfl ?_ (ChainFrom.nil 2 (some 101))
  intro hh h
  cases h
  rfl

theorem c9_tip_height_witness :
    (∃ sN, insertChain emptyStore [genesisB, blk1] = some sN
      ∧ (storageInit sN).1 = some 1
      ∧ (2 ≤ ([genesisB, blk1] : List Block).length →
          (storageInit (remove_block sN 1)).1 = some 0)) :=
  (c9_tip_height emptyStore 0 [genesisB, blk1]).2.2.2.2 rfl chainGB
    (by decide) (by decide)

end Uckb
